import Mathlib

/-!
Verification development for the fabric-swatch extraction engine
(`fabric-extractor/app.py`, class `FabricSwatchExtractor`).

The Python source is shallowly embedded: page coordinates (PDF units) are
rationals, pixel dimensions are naturals, image byte blobs are represented by
an identifier together with a flag recording whether the PIL decoder accepts
them, and fallible operations run in `Except Unit`.  Python's `str.strip` and
`str.startswith` are modelled by structural list functions (`pyStrip`,
`pyStartswith`), `str.isdigit`/`str.isalpha` by the ASCII character
classifiers (the catalogue data is ASCII), and `re` word boundaries by an
explicit scanner.  Mutation of `self` state is replaced by explicit state
threading; fields of the Python dicts that no verified property mentions
(free-text `details`, timestamps, file names, the category keyword scan and
the width/thickness/weight regexes of `parse_page_specs`) are elided.
-/

namespace FabricExtractor

attribute [local semireducible] Rat.ofScientific Rat.mul Rat.inv Rat.add Rat.sub

/-- Model of Python's `str.strip()`: drop whitespace from both ends
(structural, unlike `String.trim`, so that concrete runs reduce in the
kernel). -/
def pyStrip (s : String) : String :=
  String.mk ((s.toList.dropWhile Char.isWhitespace).reverse.dropWhile
    Char.isWhitespace).reverse

/-- Model of Python's `s.startswith(pre)`. -/
def pyStartswith (s pre : String) : Bool :=
  pre.toList.isPrefixOf s.toList

deriving instance DecidableEq for Except

/-- Image byte blob: an identity plus whether `PIL.Image.open` succeeds on it. -/
structure ImgBytes where
  id : Nat
  pilOk : Bool
deriving DecidableEq, Repr

/-- A text span from `page.get_text("dict")`, with its bounding box. -/
structure Span where
  text : String
  x0 : ℚ
  y0 : ℚ
  x1 : ℚ
  y1 : ℚ
deriving DecidableEq, Repr

/-- A placement rectangle from `page.get_image_rects(xref)`. -/
structure Rect where
  x0 : ℚ
  y0 : ℚ
  x1 : ℚ
  y1 : ℚ
deriving DecidableEq, Repr

/-- Result of `doc.extract_image(xref)`: raw bytes and intrinsic pixel size. -/
structure ExtractedImage where
  bytes : ImgBytes
  width : Nat
  height : Nat
deriving DecidableEq, Repr

/-- One entry of `page.get_images(full=True)`: the xref, the outcome of
`doc.extract_image` (`none` models the `except: continue` branches), and the
placement rectangles on the page. -/
structure ImgInfo where
  xref : Nat
  extract : Option ExtractedImage
  rects : List Rect
deriving DecidableEq, Repr

/-- A document page: structured text (lines of spans, in document order,
blocks flattened), embedded images, and the plain text of `page.get_text()`. -/
structure Page where
  lines : List (List Span)
  images : List ImgInfo
  text : String
deriving DecidableEq, Repr

/-- The opened document: its pages in order (0-based storage, 1-based page
numbers as in the Python code). -/
structure Doc where
  pages : List Page
deriving DecidableEq, Repr

/-- A recognized product-code label (`find_labels` output element). -/
structure Label where
  code : String
  cx : ℚ
  cy : ℚ
deriving DecidableEq, Repr

/-- A pool entry built in `extract_images`: the `img_data` dict. -/
structure SwatchImage where
  xref : Nat
  bytes : ImgBytes
  w : Nat
  h : Nat
  aspect : ℚ
  cx : ℚ
  cy : ℚ
deriving DecidableEq, Repr

/-- A matched pair produced by `match_labels_to_images`. -/
structure Match where
  code : String
  image : SwatchImage
deriving DecidableEq, Repr

/-- A saved swatch record (the information shared by the per-match
`fabric_spec` dict of `process_page` and the auto-fixed dict of
`fix_missing_swatch`, restricted to the fields the claims mention). -/
structure Result where
  code : String
  xref : Nat
  bytes : ImgBytes
  w : Nat
  h : Nat
  page : Nat
  auto_fixed : Bool
deriving DecidableEq, Repr

/-- A validation-ledger entry (`self.log`), without the free-text details and
timestamp.  `status = true` renders as PASS, `false` as FAIL. -/
structure VEntry where
  phase : String
  test_num : Nat
  test_name : String
  status : Bool
deriving DecidableEq, Repr

/-- The per-page summary appended to `self.page_counts`. -/
structure PageCount where
  page : Nat
  series : Option String
  expected : Nat
  extracted : Nat
  codes : List String
  fixed : Nat
deriving DecidableEq, Repr

/-- Everything `process_page` contributes: its returned results, the ledger
entries it logs, and its `page_counts` record. -/
structure PageOutput where
  results : List Result
  log : List VEntry
  count : PageCount
deriving DecidableEq, Repr

/-- The dictionary returned by `run`, restricted to the claimed fields. -/
structure RunResult where
  total_extracted : Nat
  total_fixed : Nat
  validation_log : List VEntry
  page_counts : List PageCount
  technical_specs : List Result
deriving DecidableEq, Repr

/-! ## Regular-expression models

`parse_page_specs` detects the page series with
`re.search(r'\b(8[012]\d{3})\b', text)`, and phase-1 test 4 counts codes with
`re.findall(r'\b(8[012]\d{3}[A-Z])\b', text)`.  Both are fixed-width patterns,
modelled by a left-to-right scanner with explicit word boundaries. -/

/-- A regex word character (`\w`, ASCII fragment). -/
def isWordChar (c : Char) : Bool :=
  c.isAlphanum || c == '_'

/-- A word boundary holds before the match iff there is no preceding word
character (the pattern starts with the word character `8`). -/
def boundaryBefore (prev : Option Char) : Bool :=
  match prev with
  | none => true
  | some c => !isWordChar c

/-- A word boundary holds after the match iff the next character, if any, is
not a word character (the pattern ends with a word character). -/
def boundaryAfter (rest : List Char) : Bool :=
  match rest.head? with
  | none => true
  | some c => !isWordChar c

/-- Attempt the series pattern `\b8[012]\d{3}\b` at the current position. -/
def seriesHere (prev : Option Char) : List Char → Option String
  | c0 :: c1 :: c2 :: c3 :: c4 :: rest =>
    if boundaryBefore prev && c0 == '8' && (c1 == '0' || c1 == '1' || c1 == '2')
        && c2.isDigit && c3.isDigit && c4.isDigit && boundaryAfter rest then
      some (String.mk [c0, c1, c2, c3, c4])
    else
      none
  | _ => none

/-- Left-to-right scan for the series pattern (leftmost match, as
`re.search`). -/
def seriesScan (prev : Option Char) : List Char → Option String
  | [] => none
  | c :: rest =>
    match seriesHere prev (c :: rest) with
    | some s => some s
    | none => seriesScan (some c) rest

/-- Model of the `specs["number"]` field of `parse_page_specs`: the first
`\b8[012]\d{3}\b` match in the page text, or `None`. -/
def parse_series (text : String) : Option String :=
  seriesScan none text.toList

/-- Attempt the full-code pattern `\b8[012]\d{3}[A-Z]\b` at the current
position (phase-1 test 4). -/
def codeHere (prev : Option Char) : List Char → Bool
  | c0 :: c1 :: c2 :: c3 :: c4 :: c5 :: rest =>
    boundaryBefore prev && c0 == '8' && (c1 == '0' || c1 == '1' || c1 == '2')
      && c2.isDigit && c3.isDigit && c4.isDigit
      && ('A' ≤ c5 && c5 ≤ 'Z') && boundaryAfter rest
  | _ => false

/-- Whether the text contains any `\b8[012]\d{3}[A-Z]\b` match (models
`len(re.findall(...)) > 0`). -/
def codeScan (prev : Option Char) : List Char → Bool
  | [] => false
  | c :: rest => codeHere prev (c :: rest) || codeScan (some c) rest

/-! ## Label extraction (`find_labels`) -/

/-- The span filter of `find_labels`: the trimmed text has exactly 6
characters, the first five decimal digits and the last a letter
(`len(text) == 6 and text[:5].isdigit() and text[5].isalpha()`). -/
def isLabelText (t : String) : Bool :=
  match t.toList with
  | [c0, c1, c2, c3, c4, c5] =>
    c0.isDigit && c1.isDigit && c2.isDigit && c3.isDigit && c4.isDigit && c5.isAlpha
  | _ => false

/-- Turn a span into a label when its trimmed text passes the code filter;
the label records the trimmed text and the bounding-box center. -/
def spanLabel (span : Span) : Option Label :=
  let t := pyStrip span.text
  if isLabelText t then
    some ⟨t, (span.x0 + span.x1) / 2, (span.y0 + span.y1) / 2⟩
  else
    none

/-- The raw label list of `find_labels`, before deduplication: every span of
every line, in document order. -/
def page_labels (page : Page) : List Label :=
  page.lines.foldl
    (fun acc line =>
      line.foldl
        (fun acc span =>
          match spanLabel span with
          | some l => acc ++ [l]
          | none => acc)
        acc)
    []

/-- Generic first-kept positional deduplication: keep an element unless it is
close to an already-kept one (the shape shared by the label dedup loop in
`find_labels` and the nested `dedupe` of `extract_images`). -/
def dedupBy (close : α → α → Bool) : List α → List α → List α
  | unique, [] => unique
  | unique, x :: rest =>
    if unique.any (fun u => close x u) then
      dedupBy close unique rest
    else
      dedupBy close (unique ++ [x]) rest

/-- The label closeness test: both center coordinates differ by less than
30 units. -/
def closeLabel (l u : Label) : Bool :=
  decide (|l.cx - u.cx| < 30) && decide (|l.cy - u.cy| < 30)

/-- The label dedup tolerance as a proposition: both center coordinates
differ by less than 30 units. -/
def labelNear (l u : Label) : Prop :=
  |l.cx - u.cx| < 30 ∧ |l.cy - u.cy| < 30

/-- Model of `find_labels`: collect code-shaped spans, then drop any label
within 30 units (both axes) of an earlier kept one. -/
def find_labels (page : Page) : List Label :=
  dedupBy closeLabel [] (page_labels page)

/-! ## Image extraction (`extract_images`) -/

/-- Build the `img_data` dict for one placement rectangle. -/
def mkSwatch (xref : Nat) (e : ExtractedImage) (aspect : ℚ) (rect : Rect) :
    SwatchImage :=
  ⟨xref, e.bytes, e.width, e.height, aspect,
    (rect.x0 + rect.x1) / 2, (rect.y0 + rect.y1) / 2⟩

/-- The aspect ratio `w / h` computed by `extract_images` (pool images have
`h ≥ 300 > 0`, so the Python `h > 0` guard of `detect_shape` is not in play
here; division is the rational one). -/
def aspectOf (e : ExtractedImage) : ℚ :=
  (e.width : ℚ) / (e.height : ℚ)

/-- Process one placement rectangle: position filter, then aspect-ratio
classification into the flat or curled pool. -/
def classifyRect (xref : Nat) (e : ExtractedImage)
    (pools : List SwatchImage × List SwatchImage) (rect : Rect) :
    List SwatchImage × List SwatchImage :=
  if 50 < rect.y1 ∧ 50 < rect.x1 then
    let aspect := aspectOf e
    let img := mkSwatch xref e aspect rect
    if 0.8 ≤ aspect ∧ aspect ≤ 1.3 then
      (pools.1 ++ [img], pools.2)
    else if (1.4 ≤ aspect ∧ aspect ≤ 2.0) ∧ 500 ≤ e.width then
      (pools.1, pools.2 ++ [img])
    else
      pools
  else
    pools

/-- Process one `get_images` entry: skip silently when `extract_image` fails,
apply the 300px minimum-size filter, then classify every placement. -/
def poolStep (pools : List SwatchImage × List SwatchImage) (info : ImgInfo) :
    List SwatchImage × List SwatchImage :=
  match info.extract with
  | none => pools
  | some e =>
    if 300 ≤ e.width ∧ 300 ≤ e.height then
      info.rects.foldl (classifyRect info.xref e) pools
    else
      pools

/-- The two pools of `extract_images` before deduplication. -/
def raw_pools (page : Page) : List SwatchImage × List SwatchImage :=
  page.images.foldl poolStep ([], [])

/-- The image closeness test of the nested `dedupe`: both page centers differ
by less than 50 units. -/
def closeImg (a u : SwatchImage) : Bool :=
  decide (|a.cx - u.cx| < 50) && decide (|a.cy - u.cy| < 50)

/-- The image dedup tolerance as a proposition: both page centers differ by
less than 50 units. -/
def imgNear (a u : SwatchImage) : Prop :=
  |a.cx - u.cx| < 50 ∧ |a.cy - u.cy| < 50

/-- Model of `extract_images`: classify placements into the flat and curled
pools, then positionally deduplicate each pool. -/
def extract_images (page : Page) : List SwatchImage × List SwatchImage :=
  (dedupBy closeImg [] (raw_pools page).1, dedupBy closeImg [] (raw_pools page).2)

/-! ## Spatial matcher (`match_labels_to_images`) -/

/-- Acceptance and scoring of one candidate image for one label: the
"label below image" strategy, else the "label right of image" strategy,
else rejection. -/
def candidateScore (label : Label) (img : SwatchImage) : Option ℚ :=
  let dx := label.cx - img.cx
  let dy := label.cy - img.cy
  if 30 < dy ∧ dy < 350 ∧ |dx| < 200 then
    some (|dx| + |dy - 100|)
  else if 30 < dx ∧ dx < 350 ∧ |dy| < 200 then
    some (|dy| + |dx - 100|)
  else
    none

/-- The best-so-far update of the candidate loop (`if score < best_score`):
replace the current best only on a strictly smaller score, so the first
minimum wins. -/
def betterCand (cand : Nat × SwatchImage × ℚ) :
    Option (Nat × SwatchImage × ℚ) → Nat × SwatchImage × ℚ
  | none => cand
  | some b => if cand.2.2 < b.2.2 then cand else b

/-- The inner candidate loop: scan the enumerated pool, skip used indices,
and keep the strictly best score.  The accumulator carries index, image and
score; the Python code keeps only the index and reads `images[best_idx]`
afterwards, which is the same image. -/
def pickBest (label : Label) (used : List Nat) :
    List (Nat × SwatchImage) → Option (Nat × SwatchImage × ℚ) →
    Option (Nat × SwatchImage × ℚ)
  | [], best => best
  | p :: rest, best =>
    if p.1 ∈ used then
      pickBest label used rest best
    else
      match candidateScore label p.2 with
      | none => pickBest label used rest best
      | some s => pickBest label used rest (some (betterCand (p.1, p.2, s) best))

/-- State of the greedy matching loop: the used-image index set and the
matches recorded so far (field named `matched` because `matches` is a Lean
keyword). -/
structure MatchState where
  used : List Nat
  matched : List Match
deriving DecidableEq, Repr

/-- One iteration of the label loop: pick the best unused candidate, mark it
used and record the match; otherwise leave the state unchanged. -/
def matchStep (images : List SwatchImage) (st : MatchState) (label : Label) :
    MatchState :=
  match pickBest label st.used images.enum none with
  | none => st
  | some (i, img, _) => ⟨i :: st.used, st.matched ++ [⟨label.code, img⟩]⟩

/-- Model of `match_labels_to_images`: greedy, label-order-dependent
one-to-one assignment. -/
def match_labels_to_images (labels : List Label) (images : List SwatchImage) :
    List Match :=
  (labels.foldl (matchStep images) ⟨[], []⟩).matched

/-! ## Per-page matching pipeline (`process_page`, matching part) -/

/-- The flat-pool pass of `process_page` (`matches` stays empty when the
flat pool is empty, as `if flat_swatches:` guards the call). -/
def flat_matches (page : Page) : List Match :=
  if (extract_images page).1.isEmpty then []
  else match_labels_to_images (find_labels page) (extract_images page).1

/-- The labels left unmatched after the flat pass (`unmatched` in
`process_page`). -/
def unmatched_labels (page : Page) : List Label :=
  (find_labels page).filter fun l =>
    !(((flat_matches page).map Match.code).contains l.code)

/-- The curled-pool retry of `process_page`, run only when there are
unmatched labels and the curled pool is nonempty. -/
def curl_matches (page : Page) : List Match :=
  if ¬(unmatched_labels page).isEmpty ∧ ¬(extract_images page).2.isEmpty then
    match_labels_to_images (unmatched_labels page) (extract_images page).2
  else []

/-- The primary matching passes of `process_page`: the flat pass extended by
the curled retry. -/
def primary_matches (page : Page) : List Match :=
  flat_matches page ++ curl_matches page

/-- The series filter of `process_page`: when a series was detected, keep
only matches whose code starts with it. -/
def filtered_matches (page : Page) : List Match :=
  match parse_series page.text with
  | some series => (primary_matches page).filter fun m => pyStartswith m.code series
  | none => primary_matches page

/-- Build the saved record for one retained match (the save loop body of
`process_page`). -/
def toResult (page_num : Nat) (m : Match) : Result :=
  ⟨m.code, m.image.xref, m.image.bytes, m.image.w, m.image.h, page_num, false⟩

/-- The output-assembly save loop of `process_page`: decode and save each
retained match in order.  `PIL.Image.open` (and the subsequent save) run
outside any `try`, so a decode failure propagates. -/
def saveMatches (page_num : Nat) : List Match → Except Unit (List Result)
  | [] => Except.ok []
  | m :: rest =>
    if m.image.bytes.pilOk then
      match saveMatches page_num rest with
      | Except.ok rs => Except.ok (toResult page_num m :: rs)
      | Except.error e => Except.error e
    else
      Except.error ()

/-- The expected codes of a page (`process_page` line computing
`expected_codes`): labels passing the series filter, none when no series was
detected (the Python condition is `series and l["code"].startswith(series)`). -/
def expected_codes_of (page : Page) : List String :=
  match parse_series page.text with
  | none => []
  | some s => ((find_labels page).filter fun l => pyStartswith l.code s).map Label.code

/-! ## Auto-fix engine (`fix_missing_swatch`, `validate_phase9_with_fix`) -/

/-- Re-locate a missing code's label position directly from the page text,
as `fix_missing_swatch` does: within each line the first span whose stripped
text equals the code wins, and (because only the span loop is broken out of)
a later line's hit overwrites an earlier one. -/
def findLabelPos (page : Page) (missing_code : String) : Option (ℚ × ℚ) :=
  page.lines.foldl
    (fun pos line =>
      match line.find? (fun span => pyStrip span.text == missing_code) with
      | some span => some ((span.x0 + span.x1) / 2, (span.y0 + span.y1) / 2)
      | none => pos)
    none

/-- The relaxed candidate search of `fix_missing_swatch` over one placement
rectangle: `dy > 20 and dy < 400 and dx < 250`, score `dx + abs(dy - 120)`;
the kept data is xref-level only (bytes and intrinsic size). -/
def fixRectStep (xref : Nat) (e : ExtractedImage) (lx ly : ℚ)
    (best : Option (ℚ × Nat × ExtractedImage)) (rect : Rect) :
    Option (ℚ × Nat × ExtractedImage) :=
  let img_cx := (rect.x0 + rect.x1) / 2
  let img_cy := (rect.y0 + rect.y1) / 2
  let dx := |img_cx - lx|
  let dy := ly - img_cy
  if 20 < dy ∧ dy < 400 ∧ dx < 250 then
    let score := dx + |dy - 120|
    match best with
    | none => some (score, xref, e)
    | some (bs, bx, be) =>
      if score < bs then some (score, xref, e) else some (bs, bx, be)
  else
    best

/-- The relaxed image search of `fix_missing_swatch`: every page image
(regardless of prior use), skipping extraction failures, with the 300px
minimum-size filter but no aspect or pool restriction. -/
def fixSearch (page : Page) (lx ly : ℚ) : Option (ℚ × Nat × ExtractedImage) :=
  page.images.foldl
    (fun best info =>
      match info.extract with
      | none => best
      | some e =>
        if 300 ≤ e.width ∧ 300 ≤ e.height then
          info.rects.foldl (fixRectStep info.xref e lx ly) best
        else
          best)
    none

/-- Model of `fix_missing_swatch`: locate the label, search all images with
relaxed thresholds, then decode and save the winner.  The final
`PIL.Image.open`/`save` are outside the search loop's `try`, so a decode
failure there propagates. -/
def fix_missing_swatch (page : Page) (page_num : Nat) (missing_code : String) :
    Except Unit (Option Result) :=
  match findLabelPos page missing_code with
  | none => Except.ok none
  | some (lx, ly) =>
    match fixSearch page lx ly with
    | none => Except.ok none
    | some (_, xref, e) =>
      if e.bytes.pilOk then
        Except.ok (some ⟨missing_code, xref, e.bytes, e.width, e.height, page_num, true⟩)
      else
        Except.error ()

/-- The auto-fix loop over the missing codes, collecting the successful
fixes in order. -/
def fixLoop (page : Page) (page_num : Nat) : List String → Except Unit (List Result)
  | [] => Except.ok []
  | c :: rest =>
    match fix_missing_swatch page page_num c with
    | Except.error e => Except.error e
    | Except.ok r =>
      match fixLoop page page_num rest with
      | Except.error e => Except.error e
      | Except.ok rs =>
        match r with
        | some f => Except.ok (f :: rs)
        | none => Except.ok rs

/-- The missing codes of `validate_phase9_with_fix`:
`set(expected_codes) - set(extracted_codes)`, modelled as a
first-occurrence-deduplicated filter (per-code fixes are independent of the
set's iteration order). -/
def missing_codes (expected extracted : List String) : List String :=
  dedupBy (fun a b => a == b) [] (expected.filter fun c => !(extracted.contains c))

/-- Model of `validate_phase9_with_fix`: compute the missing codes, log test
35, run the auto-fix loop, and log a second test 35 entry when any fix
succeeded. -/
def validate_phase9_with_fix (page : Page) (page_num : Nat)
    (expected extracted : List String) :
    Except Unit (List Result × List VEntry) :=
  if (missing_codes expected extracted).isEmpty then
    Except.ok ([],
      [⟨"Phase 9", 35, s!"Page {page_num}: Expected vs Extracted Count", true⟩])
  else
    match fixLoop page page_num (missing_codes expected extracted) with
    | Except.error e => Except.error e
    | Except.ok fixed =>
      if fixed.isEmpty then
        Except.ok (fixed,
          [⟨"Phase 9", 35, s!"Page {page_num}: Expected vs Extracted Count", false⟩])
      else
        Except.ok (fixed,
          [⟨"Phase 9", 35, s!"Page {page_num}: Expected vs Extracted Count", false⟩,
           ⟨"Phase 9", 35, s!"Page {page_num}: Auto-Fix Applied", true⟩])

/-- Model of `process_page`: match, filter by series, save each retained
match, then attempt auto-fix for the missing codes and build the
`page_counts` record (whose `extracted` field counts results after the fix
extension, as in the source). -/
def process_page (page : Page) (page_num : Nat) : Except Unit PageOutput :=
  match saveMatches page_num (filtered_matches page) with
  | Except.error e => Except.error e
  | Except.ok saved =>
    let expected := expected_codes_of page
    let extracted := saved.map Result.code
    match validate_phase9_with_fix page page_num expected extracted with
    | Except.error e => Except.error e
    | Except.ok (fixed, log) =>
      let results := saved ++ fixed
      Except.ok
        { results := results
          log := log
          count :=
            { page := page_num
              series := parse_series page.text
              expected := expected.length
              extracted := results.length
              codes := results.map Result.code
              fixed := fixed.length } }

/-! ## Phase validations and `run` -/

/-- Model of `validate_phase1`: test 1 always passes (taking `len(self.doc)`
cannot fail on an opened document), tests 2-4 inspect page 3's text and
images when the document has more than two pages. -/
def validate_phase1 (doc : Doc) : List VEntry :=
  let text3 :=
    if h : 2 < doc.pages.length then (doc.pages.get ⟨2, h⟩).text else ""
  let images3 :=
    if h : 2 < doc.pages.length then (doc.pages.get ⟨2, h⟩).images else []
  [⟨"Phase 1", 1, "PDF File Loading & Page Count Detection", true⟩,
   ⟨"Phase 1", 2, "Text Extraction from PDF", decide (100 < text3.length)⟩,
   ⟨"Phase 1", 3, "Image Extraction from PDF", decide (0 < images3.length)⟩,
   ⟨"Phase 1", 4, "Fabric Code Pattern Detection", codeScan none text3.toList⟩]

/-- The unconditional ledger entries of `validate_phase2` through
`validate_phase7` (tests 5-29), in logging order. -/
def phase2to7_log : List VEntry :=
  [⟨"Phase 2", 5, "Shape Detection - Square (aspect 0.9-1.1)", true⟩,
   ⟨"Phase 2", 6, "Shape Detection - Rectangle Wide (aspect >1.1)", true⟩,
   ⟨"Phase 2", 7, "Shape Detection - Rectangle Tall (aspect <0.9)", true⟩,
   ⟨"Phase 2", 8, "Label Position - Below Image", true⟩,
   ⟨"Phase 2", 9, "Label Position - Right of Image", true⟩,
   ⟨"Phase 2", 10, "Label Position - Diagonal", true⟩,
   ⟨"Phase 3", 11, "Yellow Border Detection", true⟩,
   ⟨"Phase 3", 12, "White Background Detection", true⟩,
   ⟨"Phase 3", 13, "Content Validation (not empty)", true⟩,
   ⟨"Phase 3", 14, "Distinct Color Verification", true⟩,
   ⟨"Phase 4", 15, "Minimum Resolution Check (≥300px)", true⟩,
   ⟨"Phase 4", 16, "Original Resolution Preserved", true⟩,
   ⟨"Phase 4", 17, "Image Format Validation (PNG)", true⟩,
   ⟨"Phase 5", 18, "Label-to-Image Coordinate Matching", true⟩,
   ⟨"Phase 5", 19, "Duplicate Image Detection", true⟩,
   ⟨"Phase 5", 20, "Flat Swatch Priority over Curled", true⟩,
   ⟨"Phase 5", 21, "PDF Artifact Removal", true⟩,
   ⟨"Phase 6", 22, "Series Number Extraction per Page", true⟩,
   ⟨"Phase 6", 23, "Code-Series Match Validation", true⟩,
   ⟨"Phase 6", 24, "Mismatched Code Detection & Removal", true⟩,
   ⟨"Phase 7", 25, "Composition Extraction", true⟩,
   ⟨"Phase 7", 26, "Max Width Extraction (cm)", true⟩,
   ⟨"Phase 7", 27, "Thickness Extraction (mm)", true⟩,
   ⟨"Phase 7", 28, "Weight Extraction (g/m²)", true⟩,
   ⟨"Phase 7", 29, "Blackout Rate Classification", true⟩]

/-- The unconditional ledger entries of `validate_phase8` (tests 30-34). -/
def phase8_log : List VEntry :=
  [⟨"Phase 8", 30, "Folder Structure by Category", true⟩,
   ⟨"Phase 8", 31, "File Naming Convention", true⟩,
   ⟨"Phase 8", 32, "Technical Specs CSV Export", true⟩,
   ⟨"Phase 8", 33, "Technical Specs JSON Export", true⟩,
   ⟨"Phase 8", 34, "Validation Log Export", true⟩]

/-- The 1-based page numbers processed by `run`:
`range(3, min(len(self.doc) + 1, 21))`. -/
def pageNums (doc : Doc) : List Nat :=
  List.range' 3 (min (doc.pages.length + 1) 21 - 3)

/-- The page loop of `run`: process each page number in order, accumulating
results, phase-9 ledger entries and `page_counts` records; a `none` lookup
cannot occur for the numbers `run` passes in. -/
def processPages (doc : Doc) :
    List Nat → Except Unit (List Result × List VEntry × List PageCount)
  | [] => Except.ok ([], [], [])
  | n :: rest =>
    match doc.pages.get? (n - 1) with
    | none => processPages doc rest
    | some page =>
      match process_page page n with
      | Except.error e => Except.error e
      | Except.ok out =>
        match processPages doc rest with
        | Except.error e => Except.error e
        | Except.ok (rs, ls, cs) =>
          Except.ok (out.results ++ rs, out.log ++ ls, out.count :: cs)

/-- Model of `run`: the seven up-front phase validations, the page loop over
pages 3-20, phase 8, the always-passing test 36, and the data-dependent
test 37 (`total_extracted >= total_expected`).  The returned
`technical_specs` accumulates exactly the per-page results (regular saves
then fixes, as `self.technical_specs` does). -/
def run (doc : Doc) : Except Unit RunResult :=
  match processPages doc (pageNums doc) with
  | Except.error e => Except.error e
  | Except.ok (rs, ls, cs) =>
    let total_expected := (cs.map PageCount.expected).sum
    let total_extracted := (cs.map PageCount.extracted).sum
    let total_fixed := (cs.map PageCount.fixed).sum
    Except.ok
      { total_extracted := total_extracted
        total_fixed := total_fixed
        validation_log :=
          validate_phase1 doc ++ phase2to7_log ++ ls ++ phase8_log ++
            [⟨"Phase 9", 36, "Missing Swatch Detection & Auto-Fix", true⟩,
             ⟨"Phase 9", 37, "Total Count Validation",
               decide (total_expected ≤ total_extracted)⟩]
        page_counts := cs
        technical_specs := rs }

/-- The number of ledger entries recorded for a given test identity. -/
def countTest (log : List VEntry) (n : Nat) : Nat :=
  (log.filter fun e => e.test_num == n).length

/-! ## Sample inputs used by witnesses and counterexamples -/

/-- A span whose text is the given code, 40 units wide and 10 tall around the
given center. -/
def codeSpan (c : String) (cx cy : ℚ) : Span :=
  ⟨c, cx - 20, cy - 5, cx + 20, cy + 5⟩

/-- A 600x600 flat image entry placed with center (100, 200). -/
def imgFlat : SwatchImage := ⟨7, ⟨1, true⟩, 600, 600, 1, 100, 200⟩

/-- Scenario page: labels `82046A` at (100, 300) and `82046B` at (260, 300),
a single 600x600 image placed with center (100, 200), and the series `82046`
present in the page text (the series pattern `8[012]\d{3}` requires the
second digit to be 0, 1 or 2). -/
def pageTwoLabels : Page :=
  { lines := [[codeSpan "82046A" 100 300], [codeSpan "82046B" 260 300]]
    images := [⟨7, some ⟨⟨1, true⟩, 600, 600⟩, [⟨50, 150, 150, 250⟩]⟩]
    text := "82046 series" }

/-- A page whose only image passes every size and aspect test but whose
placement rectangle fails the `rect.x1 > 50` position filter. -/
def pageEdgeRect : Page :=
  { lines := []
    images := [⟨9, some ⟨⟨2, true⟩, 600, 600⟩, [⟨0, 100, 40, 300⟩]⟩]
    text := "" }

/-- A page like `pageTwoLabels` but with a single label and an image whose
bytes the PIL decoder rejects. -/
def pageBadBytes : Page :=
  { lines := [[codeSpan "82046A" 100 300]]
    images := [⟨7, some ⟨⟨1, false⟩, 600, 600⟩, [⟨50, 150, 150, 250⟩]⟩]
    text := "82046 series" }

/-- An empty page. -/
def pageEmpty : Page := ⟨[], [], ""⟩

/-- A two-page document: too short for any page to be processed. -/
def docTwoPages : Doc := ⟨[pageEmpty, pageEmpty]⟩

/-- A three-page document whose page 3 has a matched image with undecodable
bytes. -/
def docBadBytes : Doc := ⟨[pageEmpty, pageEmpty, pageBadBytes]⟩

/-- A three-page document whose page 3 is the two-label scenario page. -/
def docTwoLabels : Doc := ⟨[pageEmpty, pageEmpty, pageTwoLabels]⟩

/-! ## Lemmas about the positional deduplication -/

theorem dedupBy_append_sublist {α : Type} (close : α → α → Bool) :
    ∀ (l unique : List α), ∃ s, dedupBy close unique l = unique ++ s ∧ s.Sublist l
  | [], unique => ⟨[], by simp [dedupBy]⟩
  | x :: rest, unique => by
    by_cases h : (unique.any fun u => close x u) = true
    · obtain ⟨s, hs, hsub⟩ := dedupBy_append_sublist close rest unique
      exact ⟨s, by simp [dedupBy, h, hs], hsub.cons x⟩
    · obtain ⟨s, hs, hsub⟩ := dedupBy_append_sublist close rest (unique ++ [x])
      exact ⟨x :: s, by simp [dedupBy, h, hs], hsub.cons₂ x⟩

theorem mem_dedupBy {α : Type} (close : α → α → Bool) (l unique : List α)
    (x : α) (hx : x ∈ dedupBy close unique l) : x ∈ unique ∨ x ∈ l := by
  obtain ⟨s, hs, hsub⟩ := dedupBy_append_sublist close l unique
  rw [hs] at hx
  rcases List.mem_append.mp hx with h | h
  · exact Or.inl h
  · exact Or.inr (hsub.subset h)

theorem dedupBy_pairwise {α : Type} (close : α → α → Bool) :
    ∀ (l unique : List α),
      unique.Pairwise (fun u v => close v u = false) →
      (dedupBy close unique l).Pairwise (fun u v => close v u = false)
  | [], _, h => h
  | x :: rest, unique, h => by
    by_cases hany : (unique.any fun u => close x u) = true
    · simpa [dedupBy, hany] using dedupBy_pairwise close rest unique h
    · have hall : ∀ u ∈ unique, close x u = false := by
        intro u hu
        by_contra hne
        exact hany (List.any_eq_true.mpr ⟨u, hu, by simpa using hne⟩)
      have hpw : (unique ++ [x]).Pairwise (fun u v => close v u = false) :=
        List.pairwise_append.mpr ⟨h, List.pairwise_singleton _ _, by
          intro a ha b hb
          rw [List.mem_singleton] at hb
          subst hb
          exact hall a ha⟩
      simpa [dedupBy, hany] using dedupBy_pairwise close rest (unique ++ [x]) hpw

theorem dedupBy_exists_close {α : Type} (close : α → α → Bool)
    (hrefl : ∀ a, close a a = true) :
    ∀ (l unique : List α) (y : α), y ∈ l →
      ∃ u ∈ dedupBy close unique l, close y u = true
  | x :: rest, unique, y, hy => by
    obtain ⟨s₀, hs₀, _⟩ := dedupBy_append_sublist close (x :: rest) unique
    by_cases hany : (unique.any fun u => close x u) = true
    · rcases List.mem_cons.mp hy with rfl | hmem
      · obtain ⟨u, hu, hcl⟩ := List.any_eq_true.mp hany
        refine ⟨u, ?_, by simpa using hcl⟩
        rw [hs₀]
        exact List.mem_append.mpr (Or.inl hu)
      · have := dedupBy_exists_close close hrefl rest unique y hmem
        simpa [dedupBy, hany] using this
    · rcases List.mem_cons.mp hy with rfl | hmem
      · obtain ⟨s₁, hs₁, _⟩ := dedupBy_append_sublist close rest (unique ++ [y])
        refine ⟨y, ?_, hrefl y⟩
        have hy' : y ∈ unique ++ [y] := List.mem_append.mpr (Or.inr (by simp))
        have hrw : dedupBy close unique (y :: rest) = dedupBy close (unique ++ [y]) rest := by
          simp [dedupBy, hany]
        rw [hrw, hs₁]
        exact List.mem_append.mpr (Or.inl hy')
      · have := dedupBy_exists_close close hrefl rest (unique ++ [x]) y hmem
        simpa [dedupBy, hany] using this

/-! ## Lemmas about label extraction -/

theorem foldl_spanLabel (line : List Span) (acc : List Label) :
    line.foldl
      (fun acc span =>
        match spanLabel span with
        | some l => acc ++ [l]
        | none => acc)
      acc = acc ++ line.filterMap spanLabel := by
  induction line generalizing acc with
  | nil => simp
  | cons s rest ih =>
    cases h : spanLabel s <;> simp [List.foldl_cons, h, ih]

theorem page_labels_eq_filterMap (page : Page) :
    page_labels page = page.lines.flatten.filterMap spanLabel := by
  unfold page_labels
  generalize page.lines = L
  suffices h : ∀ (L : List (List Span)) (acc : List Label),
      L.foldl
        (fun acc line =>
          line.foldl
            (fun acc span =>
              match spanLabel span with
              | some l => acc ++ [l]
              | none => acc)
            acc)
        acc = acc ++ L.flatten.filterMap spanLabel by
    simpa using h L []
  intro L
  induction L with
  | nil => simp
  | cons line rest ih =>
    intro acc
    rw [List.foldl_cons]
    rw [show (List.foldl
        (fun acc span =>
          match spanLabel span with
          | some l => acc ++ [l]
          | none => acc)
        acc line) = acc ++ line.filterMap spanLabel from foldl_spanLabel line acc]
    rw [ih]
    simp [List.filterMap_append]

theorem isLabelText_iff (t : String) :
    isLabelText t = true ↔
      t.toList.length = 6 ∧ (∀ c ∈ t.toList.take 5, c.isDigit) ∧
        ∀ c ∈ t.toList.drop 5, c.isAlpha := by
  unfold isLabelText
  rcases hL : t.toList with _ | ⟨c0, _ | ⟨c1, _ | ⟨c2, _ | ⟨c3, _ | ⟨c4, _ | ⟨c5, _ | ⟨c6, r⟩⟩⟩⟩⟩⟩⟩ <;>
    simp_all <;> tauto

theorem spanLabel_eq_some (span : Span) (l : Label) :
    spanLabel span = some l ↔
      isLabelText (pyStrip span.text) = true ∧
        l = ⟨pyStrip span.text, (span.x0 + span.x1) / 2, (span.y0 + span.y1) / 2⟩ := by
  unfold spanLabel
  by_cases h : isLabelText (pyStrip span.text) = true <;> simp [h] <;> tauto

/-- The label closeness relation is symmetric. -/
theorem closeLabel_symm (l u : Label) : closeLabel l u = closeLabel u l := by
  unfold closeLabel
  rw [abs_sub_comm l.cx u.cx, abs_sub_comm l.cy u.cy]

theorem closeLabel_iff (l u : Label) : closeLabel l u = true ↔ labelNear l u := by
  unfold closeLabel labelNear
  simp

/-- C6: a text span becomes a Label exactly when its trimmed text is 6
characters long with the first 5 characters numeric and the last alphabetic;
the extracted list is deduplicated within a 30-unit tolerance in both axes,
keeping first occurrences in document order (the output is a sublist of the
raw occurrence list and every raw occurrence is within tolerance of a kept
label), so the output contains no two labels within that tolerance. -/
theorem C6_label_extraction (page : Page) :
    (∀ l : Label, l ∈ page_labels page ↔
      ∃ span ∈ page.lines.flatten,
        ((pyStrip span.text).toList.length = 6 ∧
          (∀ c ∈ (pyStrip span.text).toList.take 5, c.isDigit) ∧
          ∀ c ∈ (pyStrip span.text).toList.drop 5, c.isAlpha) ∧
        l = ⟨pyStrip span.text, (span.x0 + span.x1) / 2, (span.y0 + span.y1) / 2⟩) ∧
    (find_labels page).Sublist (page_labels page) ∧
    (find_labels page).Pairwise (fun u v => ¬labelNear u v) ∧
    ∀ l ∈ page_labels page, ∃ u ∈ find_labels page, labelNear l u := by
  refine ⟨?_, ?_, ?_, ?_⟩
  · intro l
    rw [page_labels_eq_filterMap, List.mem_filterMap]
    constructor
    · rintro ⟨span, hmem, hsl⟩
      obtain ⟨ht, rfl⟩ := (spanLabel_eq_some span l).mp hsl
      exact ⟨span, hmem, (isLabelText_iff _).mp ht, rfl⟩
    · rintro ⟨span, hmem, hprops, rfl⟩
      exact ⟨span, hmem,
        (spanLabel_eq_some span _).mpr ⟨(isLabelText_iff _).mpr hprops, rfl⟩⟩
  · obtain ⟨s, hs, hsub⟩ := dedupBy_append_sublist closeLabel (page_labels page) []
    unfold find_labels
    rw [hs]
    simpa using hsub
  · have hpw := dedupBy_pairwise closeLabel (page_labels page) [] List.Pairwise.nil
    unfold find_labels
    refine hpw.imp ?_
    intro a b h hn
    rw [← closeLabel_iff a b, closeLabel_symm a b, h] at hn
    exact Bool.false_ne_true hn
  · intro l hl
    obtain ⟨u, hu, hcl⟩ :=
      dedupBy_exists_close closeLabel (fun a => by simp [closeLabel])
        (page_labels page) [] l hl
    exact ⟨u, hu, (closeLabel_iff l u).mp hcl⟩

/-- Witness for C6 at a concrete page: the span `82046A` at (100, 300) is
recognized as a label, and the deduplicated list is a sublist of the raw
occurrences. -/
theorem C6_label_extraction_witness :
    ((⟨"82046A", 100, 300⟩ : Label) ∈ page_labels pageTwoLabels) ∧
      (find_labels pageTwoLabels).Sublist (page_labels pageTwoLabels) :=
  ⟨((C6_label_extraction pageTwoLabels).1 _).mpr
      ⟨codeSpan "82046A" 100 300, by decide, by decide, by decide⟩,
    (C6_label_extraction pageTwoLabels).2.1⟩

/-! ## Lemmas about image extraction -/

/-- C9: an embedded image whose bytes fail to extract during pool
construction is skipped silently: the pools are exactly those of the page
without it, so it contributes to neither pool, no error propagates (pool
construction is total), and every other image of the page is still
classified. -/
theorem C9_decode_failure_skipped (lines : List (List Span)) (text : String)
    (pre post : List ImgInfo) (info : ImgInfo) (h : info.extract = none) :
    extract_images ⟨lines, pre ++ info :: post, text⟩ =
      extract_images ⟨lines, pre ++ post, text⟩ := by
  have hstep : ∀ pools, poolStep pools info = pools := by
    intro pools
    simp [poolStep, h]
  unfold extract_images raw_pools
  simp only [List.foldl_append, List.foldl_cons, hstep]

/-- Witness for C9: dropping the failing second image of a concrete
three-image page leaves the pools unchanged. -/
theorem C9_decode_failure_skipped_witness :
    extract_images
        ⟨[], [⟨7, some ⟨⟨1, true⟩, 600, 600⟩, [⟨50, 150, 150, 250⟩]⟩,
              ⟨8, none, [⟨50, 150, 150, 250⟩]⟩,
              ⟨9, some ⟨⟨2, true⟩, 900, 500⟩, [⟨50, 300, 500, 550⟩]⟩], ""⟩ =
      extract_images
        ⟨[], [⟨7, some ⟨⟨1, true⟩, 600, 600⟩, [⟨50, 150, 150, 250⟩]⟩,
              ⟨9, some ⟨⟨2, true⟩, 900, 500⟩, [⟨50, 300, 500, 550⟩]⟩], ""⟩ :=
  C9_decode_failure_skipped []
    "" [⟨7, some ⟨⟨1, true⟩, 600, 600⟩, [⟨50, 150, 150, 250⟩]⟩]
    [⟨9, some ⟨⟨2, true⟩, 900, 500⟩, [⟨50, 300, 500, 550⟩]⟩]
    ⟨8, none, [⟨50, 150, 150, 250⟩]⟩ rfl

/-- Membership in the rectangle-classification fold, both pools at once. -/
theorem mem_classifyRect_foldl (xref : Nat) (e : ExtractedImage)
    (img : SwatchImage) :
    ∀ (rects : List Rect) (pools : List SwatchImage × List SwatchImage),
      ((img ∈ (rects.foldl (classifyRect xref e) pools).1 ↔
        img ∈ pools.1 ∨ ∃ rect ∈ rects, (50 < rect.y1 ∧ 50 < rect.x1) ∧
          (0.8 ≤ aspectOf e ∧ aspectOf e ≤ 1.3) ∧
          img = mkSwatch xref e (aspectOf e) rect) ∧
      (img ∈ (rects.foldl (classifyRect xref e) pools).2 ↔
        img ∈ pools.2 ∨ ∃ rect ∈ rects, (50 < rect.y1 ∧ 50 < rect.x1) ∧
          ((1.4 ≤ aspectOf e ∧ aspectOf e ≤ 2.0) ∧ 500 ≤ e.width) ∧
          img = mkSwatch xref e (aspectOf e) rect))
  | [], pools => by simp
  | rect :: rects, pools => by
    have ih := mem_classifyRect_foldl xref e img rects (classifyRect xref e pools rect)
    rw [List.foldl_cons]
    by_cases hpos : 50 < rect.y1 ∧ 50 < rect.x1
    · by_cases hflat : 0.8 ≤ aspectOf e ∧ aspectOf e ≤ 1.3
      · have hcl : classifyRect xref e pools rect =
            (pools.1 ++ [mkSwatch xref e (aspectOf e) rect], pools.2) := by
          simp [classifyRect, hpos, hflat]
        rw [hcl] at ih ⊢
        constructor
        · rw [ih.1]
          simp only [List.mem_append, List.mem_singleton]
          constructor
          · rintro ((h | h) | ⟨r, hr, hp⟩)
            · exact Or.inl h
            · exact Or.inr ⟨rect, by simp, hpos, hflat, h⟩
            · exact Or.inr ⟨r, by simp [hr], hp⟩
          · rintro (h | ⟨r, hr, hp⟩)
            · exact Or.inl (Or.inl h)
            · rcases List.mem_cons.mp hr with rfl | hr'
              · exact Or.inl (Or.inr hp.2.2)
              · exact Or.inr ⟨r, hr', hp⟩
        · rw [ih.2]
          constructor
          · rintro (h | ⟨r, hr, hp⟩)
            · exact Or.inl h
            · exact Or.inr ⟨r, by simp [hr], hp⟩
          · rintro (h | ⟨r, hr, hp⟩)
            · exact Or.inl h
            · rcases List.mem_cons.mp hr with rfl | hr'
              · exact absurd hflat (by
                  have h14 := hp.2.1.1.1
                  intro hc
                  have := hc.2
                  linarith)
              · exact Or.inr ⟨r, hr', hp⟩
      · by_cases hcurl : (1.4 ≤ aspectOf e ∧ aspectOf e ≤ 2.0) ∧ 500 ≤ e.width
        · have hcl : classifyRect xref e pools rect =
              (pools.1, pools.2 ++ [mkSwatch xref e (aspectOf e) rect]) := by
            simp [classifyRect, hpos, hflat, hcurl]
          rw [hcl] at ih ⊢
          constructor
          · rw [ih.1]
            constructor
            · rintro (h | ⟨r, hr, hp⟩)
              · exact Or.inl h
              · exact Or.inr ⟨r, by simp [hr], hp⟩
            · rintro (h | ⟨r, hr, hp⟩)
              · exact Or.inl h
              · rcases List.mem_cons.mp hr with rfl | hr'
                · exact absurd hp.2.1 hflat
                · exact Or.inr ⟨r, hr', hp⟩
          · rw [ih.2]
            simp only [List.mem_append, List.mem_singleton]
            constructor
            · rintro ((h | h) | ⟨r, hr, hp⟩)
              · exact Or.inl h
              · exact Or.inr ⟨rect, by simp, hpos, hcurl, h⟩
              · exact Or.inr ⟨r, by simp [hr], hp⟩
            · rintro (h | ⟨r, hr, hp⟩)
              · exact Or.inl (Or.inl h)
              · rcases List.mem_cons.mp hr with rfl | hr'
                · exact Or.inl (Or.inr hp.2.2)
                · exact Or.inr ⟨r, hr', hp⟩
        · have hcl : classifyRect xref e pools rect = pools := by
            simp [classifyRect, hpos, hflat, hcurl]
          rw [hcl] at ih ⊢
          refine ⟨ih.1.trans ?_, ih.2.trans ?_⟩
          · constructor
            · rintro (h | ⟨r, hr, hp⟩)
              · exact Or.inl h
              · exact Or.inr ⟨r, by simp [hr], hp⟩
            · rintro (h | ⟨r, hr, hp⟩)
              · exact Or.inl h
              · rcases List.mem_cons.mp hr with rfl | hr'
                · exact absurd hp.2.1 hflat
                · exact Or.inr ⟨r, hr', hp⟩
          · constructor
            · rintro (h | ⟨r, hr, hp⟩)
              · exact Or.inl h
              · exact Or.inr ⟨r, by simp [hr], hp⟩
            · rintro (h | ⟨r, hr, hp⟩)
              · exact Or.inl h
              · rcases List.mem_cons.mp hr with rfl | hr'
                · exact absurd hp.2.1 hcurl
                · exact Or.inr ⟨r, hr', hp⟩
    · have hcl : classifyRect xref e pools rect = pools := by
        simp [classifyRect, hpos]
      rw [hcl] at ih ⊢
      refine ⟨ih.1.trans ?_, ih.2.trans ?_⟩ <;>
      · constructor
        · rintro (h | ⟨r, hr, hp⟩)
          · exact Or.inl h
          · exact Or.inr ⟨r, by simp [hr], hp⟩
        · rintro (h | ⟨r, hr, hp⟩)
          · exact Or.inl h
          · rcases List.mem_cons.mp hr with rfl | hr'
            · exact absurd hp.1 hpos
            · exact Or.inr ⟨r, hr', hp⟩

/-- Membership in the image-level fold of `extract_images`, both pools at
once. -/
theorem mem_poolStep_foldl (img : SwatchImage) :
    ∀ (infos : List ImgInfo) (pools : List SwatchImage × List SwatchImage),
      ((img ∈ (infos.foldl poolStep pools).1 ↔
        img ∈ pools.1 ∨ ∃ info ∈ infos, ∃ e, info.extract = some e ∧
          (300 ≤ e.width ∧ 300 ≤ e.height) ∧
          ∃ rect ∈ info.rects, (50 < rect.y1 ∧ 50 < rect.x1) ∧
            (0.8 ≤ aspectOf e ∧ aspectOf e ≤ 1.3) ∧
            img = mkSwatch info.xref e (aspectOf e) rect) ∧
      (img ∈ (infos.foldl poolStep pools).2 ↔
        img ∈ pools.2 ∨ ∃ info ∈ infos, ∃ e, info.extract = some e ∧
          (300 ≤ e.width ∧ 300 ≤ e.height) ∧
          ∃ rect ∈ info.rects, (50 < rect.y1 ∧ 50 < rect.x1) ∧
            ((1.4 ≤ aspectOf e ∧ aspectOf e ≤ 2.0) ∧ 500 ≤ e.width) ∧
            img = mkSwatch info.xref e (aspectOf e) rect))
  | [], pools => by simp
  | info :: infos, pools => by
    have ih := mem_poolStep_foldl img infos (poolStep pools info)
    rw [List.foldl_cons]
    cases hx : info.extract with
    | none =>
      have hps : poolStep pools info = pools := by simp [poolStep, hx]
      rw [hps] at ih ⊢
      refine ⟨ih.1.trans ?_, ih.2.trans ?_⟩ <;>
      · constructor
        · rintro (h | ⟨i, hi, he⟩)
          · exact Or.inl h
          · exact Or.inr ⟨i, List.mem_cons_of_mem _ hi, he⟩
        · rintro (h | ⟨i, hi, e', hee, hrest⟩)
          · exact Or.inl h
          · rcases List.mem_cons.mp hi with rfl | hi'
            · rw [hx] at hee
              exact absurd hee (by simp)
            · exact Or.inr ⟨i, hi', e', hee, hrest⟩
    | some e =>
      by_cases hsz : 300 ≤ e.width ∧ 300 ≤ e.height
      · have hps : poolStep pools info =
            info.rects.foldl (classifyRect info.xref e) pools := by
          simp [poolStep, hx, hsz]
        rw [hps] at ih ⊢
        have hm := mem_classifyRect_foldl info.xref e img info.rects pools
        constructor
        · constructor
          · intro hmem
            rcases ih.1.mp hmem with h | ⟨i, hi, rest⟩
            · rcases hm.1.mp h with h0 | ⟨rect, hr, hp⟩
              · exact Or.inl h0
              · exact Or.inr ⟨info, List.mem_cons_self _ _, e, hx, hsz, rect, hr, hp⟩
            · exact Or.inr ⟨i, List.mem_cons_of_mem _ hi, rest⟩
          · intro hmem
            rcases hmem with h0 | ⟨i, hi, e', he', hsz', rect, hr, hp⟩
            · exact ih.1.mpr (Or.inl (hm.1.mpr (Or.inl h0)))
            · rcases List.mem_cons.mp hi with rfl | hi'
              · rw [hx] at he'
                have he'' := Option.some.inj he'
                subst he''
                exact ih.1.mpr (Or.inl (hm.1.mpr (Or.inr ⟨rect, hr, hp⟩)))
              · exact ih.1.mpr (Or.inr ⟨i, hi', e', he', hsz', rect, hr, hp⟩)
        · constructor
          · intro hmem
            rcases ih.2.mp hmem with h | ⟨i, hi, rest⟩
            · rcases hm.2.mp h with h0 | ⟨rect, hr, hp⟩
              · exact Or.inl h0
              · exact Or.inr ⟨info, List.mem_cons_self _ _, e, hx, hsz, rect, hr, hp⟩
            · exact Or.inr ⟨i, List.mem_cons_of_mem _ hi, rest⟩
          · intro hmem
            rcases hmem with h0 | ⟨i, hi, e', he', hsz', rect, hr, hp⟩
            · exact ih.2.mpr (Or.inl (hm.2.mpr (Or.inl h0)))
            · rcases List.mem_cons.mp hi with rfl | hi'
              · rw [hx] at he'
                have he'' := Option.some.inj he'
                subst he''
                exact ih.2.mpr (Or.inl (hm.2.mpr (Or.inr ⟨rect, hr, hp⟩)))
              · exact ih.2.mpr (Or.inr ⟨i, hi', e', he', hsz', rect, hr, hp⟩)
      · have hps : poolStep pools info = pools := by simp [poolStep, hx, hsz]
        rw [hps] at ih ⊢
        refine ⟨ih.1.trans ?_, ih.2.trans ?_⟩ <;>
        · constructor
          · rintro (h | ⟨i, hi, he⟩)
            · exact Or.inl h
            · exact Or.inr ⟨i, List.mem_cons_of_mem _ hi, he⟩
          · rintro (h | ⟨i, hi, e', hee, hsz', hrest⟩)
            · exact Or.inl h
            · rcases List.mem_cons.mp hi with rfl | hi'
              · rw [hx] at hee
                have he'' := Option.some.inj hee
                subst he''
                exact absurd hsz' hsz
              · exact Or.inr ⟨i, hi', e', hee, hsz', hrest⟩

theorem closeImg_iff (a u : SwatchImage) : closeImg a u = true ↔ imgNear a u := by
  unfold closeImg imgNear
  simp

theorem closeImg_symm (a u : SwatchImage) : closeImg a u = closeImg u a := by
  unfold closeImg
  rw [abs_sub_comm a.cx u.cx, abs_sub_comm a.cy u.cy]

theorem mem_raw_pools (page : Page) (img : SwatchImage) :
    (img ∈ (raw_pools page).1 ↔
      ∃ info ∈ page.images, ∃ e, info.extract = some e ∧
        (300 ≤ e.width ∧ 300 ≤ e.height) ∧
        ∃ rect ∈ info.rects, (50 < rect.y1 ∧ 50 < rect.x1) ∧
          (0.8 ≤ aspectOf e ∧ aspectOf e ≤ 1.3) ∧
          img = mkSwatch info.xref e (aspectOf e) rect) ∧
    (img ∈ (raw_pools page).2 ↔
      ∃ info ∈ page.images, ∃ e, info.extract = some e ∧
        (300 ≤ e.width ∧ 300 ≤ e.height) ∧
        ∃ rect ∈ info.rects, (50 < rect.y1 ∧ 50 < rect.x1) ∧
          ((1.4 ≤ aspectOf e ∧ aspectOf e ≤ 2.0) ∧ 500 ≤ e.width) ∧
          img = mkSwatch info.xref e (aspectOf e) rect) := by
  have h := mem_poolStep_foldl img page.images ([], [])
  simpa [raw_pools] using h

/-- Every raw flat-pool entry records its source dimensions and a flat
aspect. -/
theorem raw_flat_bounds (page : Page) (img : SwatchImage)
    (h : img ∈ (raw_pools page).1) :
    300 ≤ img.w ∧ 300 ≤ img.h ∧ 0.8 ≤ img.aspect ∧ img.aspect ≤ 1.3 := by
  obtain ⟨_, _, e, _, hsz, _, _, _, hasp, rfl⟩ := (mem_raw_pools page img).1.mp h
  exact ⟨hsz.1, hsz.2, hasp.1, hasp.2⟩

/-- Every raw curled-pool entry records its source dimensions and a curled
aspect. -/
theorem raw_curl_bounds (page : Page) (img : SwatchImage)
    (h : img ∈ (raw_pools page).2) :
    300 ≤ img.w ∧ 300 ≤ img.h ∧ 500 ≤ img.w ∧
      1.4 ≤ img.aspect ∧ img.aspect ≤ 2.0 := by
  obtain ⟨_, _, e, _, hsz, _, _, _, hasp, rfl⟩ := (mem_raw_pools page img).2.mp h
  exact ⟨hsz.1, hsz.2, hasp.2, hasp.1.1, hasp.1.2⟩

theorem mem_extract_flat (page : Page) (img : SwatchImage)
    (h : img ∈ (extract_images page).1) : img ∈ (raw_pools page).1 := by
  unfold extract_images at h
  rcases mem_dedupBy closeImg _ [] img h with h0 | h1
  · cases h0
  · exact h1

theorem mem_extract_curl (page : Page) (img : SwatchImage)
    (h : img ∈ (extract_images page).2) : img ∈ (raw_pools page).2 := by
  unfold extract_images at h
  rcases mem_dedupBy closeImg _ [] img h with h0 | h1
  · cases h0
  · exact h1

/-- C5 (amended): image extraction admits to a pool only placements of images
with both intrinsic dimensions ≥ 300px whose placement rectangle additionally
satisfies `y1 > 50` and `x1 > 50`; under those conditions a placement enters
the flat pool exactly when the aspect ratio lies in [0.8, 1.3] and the curled
pool exactly when it lies in [1.4, 2.0] with width ≥ 500, so the pools are
disjoint; within each pool, entries within 50 units of an earlier entry in
both axes collapse onto it. -/
theorem C5_image_classification (page : Page) :
    (∀ img : SwatchImage,
      (img ∈ (raw_pools page).1 ↔
        ∃ info ∈ page.images, ∃ e, info.extract = some e ∧
          (300 ≤ e.width ∧ 300 ≤ e.height) ∧
          ∃ rect ∈ info.rects, (50 < rect.y1 ∧ 50 < rect.x1) ∧
            (0.8 ≤ aspectOf e ∧ aspectOf e ≤ 1.3) ∧
            img = mkSwatch info.xref e (aspectOf e) rect) ∧
      (img ∈ (raw_pools page).2 ↔
        ∃ info ∈ page.images, ∃ e, info.extract = some e ∧
          (300 ≤ e.width ∧ 300 ≤ e.height) ∧
          ∃ rect ∈ info.rects, (50 < rect.y1 ∧ 50 < rect.x1) ∧
            ((1.4 ≤ aspectOf e ∧ aspectOf e ≤ 2.0) ∧ 500 ≤ e.width) ∧
            img = mkSwatch info.xref e (aspectOf e) rect)) ∧
    (∀ img ∈ (extract_images page).1, 300 ≤ img.w ∧ 300 ≤ img.h) ∧
    (∀ img ∈ (extract_images page).2, 300 ≤ img.w ∧ 300 ≤ img.h) ∧
    (∀ img, img ∈ (extract_images page).1 → img ∉ (extract_images page).2) ∧
    (extract_images page).1.Pairwise (fun u v => ¬imgNear u v) ∧
    (extract_images page).2.Pairwise (fun u v => ¬imgNear u v) ∧
    (∀ img ∈ (raw_pools page).1, ∃ u ∈ (extract_images page).1, imgNear img u) ∧
    (∀ img ∈ (raw_pools page).2, ∃ u ∈ (extract_images page).2, imgNear img u) := by
  refine ⟨fun img => mem_raw_pools page img, ?_, ?_, ?_, ?_, ?_, ?_, ?_⟩
  · intro img h
    have hb := raw_flat_bounds page img (mem_extract_flat page img h)
    exact ⟨hb.1, hb.2.1⟩
  · intro img h
    have hb := raw_curl_bounds page img (mem_extract_curl page img h)
    exact ⟨hb.1, hb.2.1⟩
  · intro img h1 h2
    have hf := raw_flat_bounds page img (mem_extract_flat page img h1)
    have hc := raw_curl_bounds page img (mem_extract_curl page img h2)
    have h13 : img.aspect ≤ 1.3 := hf.2.2.2
    have h14 : (1.4 : ℚ) ≤ img.aspect := hc.2.2.2.1
    have : (1.3 : ℚ) < 1.4 := by norm_num
    linarith
  · show (dedupBy closeImg [] (raw_pools page).1).Pairwise _
    have hpw := dedupBy_pairwise closeImg (raw_pools page).1 [] List.Pairwise.nil
    refine hpw.imp ?_
    intro a b h hn
    rw [← closeImg_iff a b, closeImg_symm a b, h] at hn
    exact Bool.false_ne_true hn
  · show (dedupBy closeImg [] (raw_pools page).2).Pairwise _
    have hpw := dedupBy_pairwise closeImg (raw_pools page).2 [] List.Pairwise.nil
    refine hpw.imp ?_
    intro a b h hn
    rw [← closeImg_iff a b, closeImg_symm a b, h] at hn
    exact Bool.false_ne_true hn
  · intro img h
    obtain ⟨u, hu, hcl⟩ :=
      dedupBy_exists_close closeImg (fun a => by simp [closeImg])
        (raw_pools page).1 [] img h
    exact ⟨u, hu, (closeImg_iff img u).mp hcl⟩
  · intro img h
    obtain ⟨u, hu, hcl⟩ :=
      dedupBy_exists_close closeImg (fun a => by simp [closeImg])
        (raw_pools page).2 [] img h
    exact ⟨u, hu, (closeImg_iff img u).mp hcl⟩

/-- Counterexample for C5 as stated: a placement of a 600x600 image (both
dimensions ≥ 300, aspect ratio 1 ∈ [0.8, 1.3]) whose rectangle has
`x1 = 40 ≤ 50` enters neither pool, so the aspect-ratio condition alone does
not characterize flat-pool membership. -/
theorem C5_counterexample :
    (300 ≤ (600 : Nat) ∧ 300 ≤ (600 : Nat)) ∧
      (0.8 ≤ aspectOf ⟨⟨2, true⟩, 600, 600⟩ ∧
        aspectOf ⟨⟨2, true⟩, 600, 600⟩ ≤ 1.3) ∧
      pageEdgeRect.images =
        [⟨9, some ⟨⟨2, true⟩, 600, 600⟩, [⟨0, 100, 40, 300⟩]⟩] ∧
      extract_images pageEdgeRect = ([], []) := by
  decide

/-- Witness for C5 at a concrete page: the 600x600 placement of
`pageTwoLabels` is in the raw flat pool via the characterization, and is not
in the final curled pool by disjointness. -/
theorem C5_image_classification_witness :
    ((⟨7, ⟨1, true⟩, 600, 600, 1, 100, 200⟩ : SwatchImage) ∈
        (raw_pools pageTwoLabels).1) ∧
      ((⟨7, ⟨1, true⟩, 600, 600, 1, 100, 200⟩ : SwatchImage) ∉
        (extract_images pageTwoLabels).2) :=
  ⟨((C5_image_classification pageTwoLabels).1 _).1.mpr
      ⟨⟨7, some ⟨⟨1, true⟩, 600, 600⟩, [⟨50, 150, 150, 250⟩]⟩, by decide,
        ⟨⟨1, true⟩, 600, 600⟩, rfl, by decide,
        ⟨50, 150, 150, 250⟩, by decide, by decide, by decide, by decide⟩,
    (C5_image_classification pageTwoLabels).2.2.2.1 _ (by decide)⟩

/-! ## Lemmas about the spatial matcher -/

theorem betterCand_cases (cand : Nat × SwatchImage × ℚ)
    (best : Option (Nat × SwatchImage × ℚ)) :
    betterCand cand best = cand ∨ best = some (betterCand cand best) := by
  cases best with
  | none => exact Or.inl rfl
  | some b =>
    have hbc : betterCand cand (some b) = if cand.2.2 < b.2.2 then cand else b := rfl
    rw [hbc]
    by_cases h : cand.2.2 < b.2.2
    · rw [if_pos h]
      exact Or.inl rfl
    · rw [if_neg h]
      exact Or.inr rfl

theorem betterCand_le (cand : Nat × SwatchImage × ℚ)
    (best : Option (Nat × SwatchImage × ℚ)) :
    (betterCand cand best).2.2 ≤ cand.2.2 ∧
      ∀ b, best = some b → (betterCand cand best).2.2 ≤ b.2.2 := by
  cases best with
  | none =>
    refine ⟨le_refl _, ?_⟩
    intro b hb
    cases hb
  | some b =>
    have hbc : betterCand cand (some b) = if cand.2.2 < b.2.2 then cand else b := rfl
    rw [hbc]
    by_cases h : cand.2.2 < b.2.2
    · rw [if_pos h]
      refine ⟨le_refl _, ?_⟩
      intro b' hb'
      injection hb' with hb'
      subst hb'
      exact le_of_lt h
    · rw [if_neg h]
      refine ⟨le_of_not_lt h, ?_⟩
      intro b' hb'
      injection hb' with hb'
      subst hb'
      exact le_refl _

theorem pickBest_sound (label : Label) (used : List Nat) :
    ∀ (l : List (Nat × SwatchImage)) (best : Option (Nat × SwatchImage × ℚ))
      (b : Nat × SwatchImage × ℚ),
      pickBest label used l best = some b →
      best = some b ∨
        (b.1 ∉ used ∧ (b.1, b.2.1) ∈ l ∧ candidateScore label b.2.1 = some b.2.2)
  | [], best, b, h => Or.inl (by simpa [pickBest] using h)
  | p :: rest, best, b, h => by
    by_cases hu : p.1 ∈ used
    · rw [show pickBest label used (p :: rest) best = pickBest label used rest best by
        simp [pickBest, hu]] at h
      rcases pickBest_sound label used rest best b h with h1 | h2
      · exact Or.inl h1
      · exact Or.inr ⟨h2.1, List.mem_cons_of_mem _ h2.2.1, h2.2.2⟩
    · cases hs : candidateScore label p.2 with
      | none =>
        rw [show pickBest label used (p :: rest) best = pickBest label used rest best by
          simp [pickBest, hu, hs]] at h
        rcases pickBest_sound label used rest best b h with h1 | h2
        · exact Or.inl h1
        · exact Or.inr ⟨h2.1, List.mem_cons_of_mem _ h2.2.1, h2.2.2⟩
      | some s =>
        rw [show pickBest label used (p :: rest) best =
            pickBest label used rest (some (betterCand (p.1, p.2, s) best)) by
          simp [pickBest, hu, hs]] at h
        rcases pickBest_sound label used rest _ b h with h1 | h2
        · have hb := Option.some.inj h1
          rcases betterCand_cases (p.1, p.2, s) best with hc | hc
          · have hbc : b = (p.1, p.2, s) := by rw [← hb, hc]
            subst hbc
            exact Or.inr ⟨hu, by simp, hs⟩
          · rw [hb] at hc
            exact Or.inl hc
        · exact Or.inr ⟨h2.1, List.mem_cons_of_mem _ h2.2.1, h2.2.2⟩

theorem pickBest_min (label : Label) (used : List Nat) :
    ∀ (l : List (Nat × SwatchImage)) (best : Option (Nat × SwatchImage × ℚ))
      (b : Nat × SwatchImage × ℚ),
      pickBest label used l best = some b →
      (∀ bv, best = some bv → b.2.2 ≤ bv.2.2) ∧
        ∀ p ∈ l, p.1 ∉ used → ∀ s, candidateScore label p.2 = some s → b.2.2 ≤ s
  | [], best, b, h => by
    have hb : best = some b := by simpa [pickBest] using h
    constructor
    · intro bv hbv
      rw [hb] at hbv
      injection hbv with h'
      rw [h']
    · intro p hp
      exact absurd hp (List.not_mem_nil p)
  | p :: rest, best, b, h => by
    by_cases hu : p.1 ∈ used
    · rw [show pickBest label used (p :: rest) best = pickBest label used rest best by
        simp [pickBest, hu]] at h
      obtain ⟨h1, h2⟩ := pickBest_min label used rest best b h
      refine ⟨h1, ?_⟩
      intro q hq hqu s hscore
      rcases List.mem_cons.mp hq with rfl | hq'
      · exact absurd hu hqu
      · exact h2 q hq' hqu s hscore
    · cases hs : candidateScore label p.2 with
      | none =>
        rw [show pickBest label used (p :: rest) best = pickBest label used rest best by
          simp [pickBest, hu, hs]] at h
        obtain ⟨h1, h2⟩ := pickBest_min label used rest best b h
        refine ⟨h1, ?_⟩
        intro q hq hqu s hscore
        rcases List.mem_cons.mp hq with rfl | hq'
        · rw [hs] at hscore
          cases hscore
        · exact h2 q hq' hqu s hscore
      | some s =>
        rw [show pickBest label used (p :: rest) best =
            pickBest label used rest (some (betterCand (p.1, p.2, s) best)) by
          simp [pickBest, hu, hs]] at h
        obtain ⟨h1, h2⟩ :=
          pickBest_min label used rest (some (betterCand (p.1, p.2, s) best)) b h
        have hble := betterCand_le (p.1, p.2, s) best
        have hbb : b.2.2 ≤ (betterCand (p.1, p.2, s) best).2.2 := h1 _ rfl
        constructor
        · intro bv hbv
          exact le_trans hbb (hble.2 bv hbv)
        · intro q hq hqu s' hscore
          rcases List.mem_cons.mp hq with rfl | hq'
          · rw [hs] at hscore
            injection hscore with hseq
            subst hseq
            exact le_trans hbb hble.1
          · exact h2 q hq' hqu s' hscore

theorem forall₂_mem_right {α β : Type} {R : α → β → Prop} :
    ∀ {l1 : List α} {l2 : List β}, List.Forall₂ R l1 l2 →
      ∀ b ∈ l2, ∃ a ∈ l1, R a b := by
  intro l1 l2 h
  induction h with
  | nil =>
    intro b hb
    cases hb
  | cons hab htail ih =>
    intro b hb
    rcases List.mem_cons.mp hb with rfl | hb'
    · exact ⟨_, List.mem_cons_self _ _, hab⟩
    · obtain ⟨a, ha, hR⟩ := ih b hb'
      exact ⟨a, List.mem_cons_of_mem _ ha, hR⟩

theorem matchStep_invariant (images : List SwatchImage) :
    ∀ (labels : List Label) (st : MatchState) (idxs : List Nat),
      idxs.Nodup → (∀ i ∈ idxs, i ∈ st.used) →
      List.Forall₂ (fun i (m : Match) => images[i]? = some m.image) idxs st.matched →
      ∃ idxs' : List Nat, idxs'.Nodup ∧
        (∀ i ∈ idxs', i ∈ (labels.foldl (matchStep images) st).used) ∧
        List.Forall₂ (fun i (m : Match) => images[i]? = some m.image) idxs'
          (labels.foldl (matchStep images) st).matched
  | [], st, idxs, hN, hsub, hF => ⟨idxs, hN, hsub, hF⟩
  | label :: rest, st, idxs, hN, hsub, hF => by
    rw [List.foldl_cons]
    cases hp : pickBest label st.used images.enum none with
    | none =>
      have hstep : matchStep images st label = st := by simp [matchStep, hp]
      rw [hstep]
      exact matchStep_invariant images rest st idxs hN hsub hF
    | some t =>
      obtain ⟨i, img, s⟩ := t
      have hstep : matchStep images st label =
          ⟨i :: st.used, st.matched ++ [⟨label.code, img⟩]⟩ := by
        simp [matchStep, hp]
      rw [hstep]
      rcases pickBest_sound label st.used images.enum none (i, img, s) hp with h0 | hpr
      · cases h0
      · have hiu : i ∉ st.used := hpr.1
        have hget : images[i]? = some img :=
          List.mk_mem_enum_iff_getElem?.mp hpr.2.1
        have hNi : (idxs ++ [i]).Nodup := by
          rw [List.nodup_append]
          refine ⟨hN, List.nodup_singleton i, ?_⟩
          intro a ha hai
          rw [List.mem_singleton] at hai
          subst hai
          exact hiu (hsub a ha)
        have hsub' : ∀ j ∈ idxs ++ [i], j ∈ i :: st.used := by
          intro j hj
          rcases List.mem_append.mp hj with hj' | hj'
          · exact List.mem_cons_of_mem _ (hsub j hj')
          · rw [List.mem_singleton] at hj'
            subst hj'
            exact List.mem_cons_self _ _
        have hF' : List.Forall₂ (fun i (m : Match) => images[i]? = some m.image)
            (idxs ++ [i]) (st.matched ++ [⟨label.code, img⟩]) :=
          List.rel_append hF (List.Forall₂.cons hget List.Forall₂.nil)
        exact matchStep_invariant images rest
          ⟨i :: st.used, st.matched ++ [⟨label.code, img⟩]⟩
          (idxs ++ [i]) hNi hsub' hF'

theorem match_images_sound (labels : List Label) (images : List SwatchImage) :
    ∃ idxs : List Nat, idxs.Nodup ∧
      List.Forall₂ (fun i (m : Match) => images[i]? = some m.image) idxs
        (match_labels_to_images labels images) := by
  obtain ⟨idxs, hN, _, hF⟩ :=
    matchStep_invariant images labels ⟨[], []⟩ [] List.Pairwise.nil
      (by intro i hi; cases hi) List.Forall₂.nil
  exact ⟨idxs, hN, hF⟩

theorem nodup_map_image_of_forall₂ (images : List SwatchImage)
    (hNI : images.Nodup) :
    ∀ (idxs : List Nat) (ms : List Match),
      List.Forall₂ (fun i (m : Match) => images[i]? = some m.image) idxs ms →
      idxs.Nodup → (ms.map Match.image).Nodup := by
  intro idxs ms hF
  induction hF with
  | nil =>
    intro _
    simp
  | @cons a m l₁ l₂ hab htail ih =>
    intro hN
    rw [List.map_cons, List.nodup_cons]
    refine ⟨?_, ih (List.nodup_cons.mp hN).2⟩
    intro hmem
    rw [List.mem_map] at hmem
    obtain ⟨m', hm', heq⟩ := hmem
    obtain ⟨a', ha', hR⟩ := forall₂_mem_right htail m' hm'
    have hlt := (List.getElem?_eq_some_iff.mp hab).1
    have heq2 : images[a]? = images[a']? := by
      rw [hab, hR, heq]
    have haa : a = a' := List.getElem?_inj hlt hNI heq2
    subst haa
    exact (List.nodup_cons.mp hN).1 ha'

theorem match_map_image_nodup (labels : List Label) (images : List SwatchImage)
    (hNI : images.Nodup) :
    ((match_labels_to_images labels images).map Match.image).Nodup := by
  obtain ⟨idxs, hN, hF⟩ := match_images_sound labels images
  exact nodup_map_image_of_forall₂ images hNI idxs _ hF hN

theorem match_image_mem (labels : List Label) (images : List SwatchImage)
    (m : Match) (hm : m ∈ match_labels_to_images labels images) :
    m.image ∈ images := by
  obtain ⟨idxs, _, hF⟩ := match_images_sound labels images
  obtain ⟨a, _, hR⟩ := forall₂_mem_right hF m hm
  exact List.getElem?_mem hR

theorem extract_flat_nodup (page : Page) : (extract_images page).1.Nodup := by
  have hpw := dedupBy_pairwise closeImg (raw_pools page).1 [] List.Pairwise.nil
  exact hpw.imp fun h heq => by
    subst heq
    simp [closeImg] at h

theorem extract_curl_nodup (page : Page) : (extract_images page).2.Nodup := by
  have hpw := dedupBy_pairwise closeImg (raw_pools page).2 [] List.Pairwise.nil
  exact hpw.imp fun h heq => by
    subst heq
    simp [closeImg] at h

theorem flat_matches_nodup (page : Page) :
    ((flat_matches page).map Match.image).Nodup := by
  unfold flat_matches
  by_cases h : (extract_images page).1.isEmpty
  · simp [h]
  · rw [if_neg h]
    exact match_map_image_nodup _ _ (extract_flat_nodup page)

theorem flat_matches_mem (page : Page) (m : Match) (hm : m ∈ flat_matches page) :
    m.image ∈ (extract_images page).1 := by
  unfold flat_matches at hm
  by_cases h : (extract_images page).1.isEmpty
  · rw [if_pos h] at hm
    cases hm
  · rw [if_neg h] at hm
    exact match_image_mem _ _ m hm

theorem curl_matches_nodup (page : Page) :
    ((curl_matches page).map Match.image).Nodup := by
  unfold curl_matches
  by_cases h : ¬(unmatched_labels page).isEmpty ∧ ¬(extract_images page).2.isEmpty
  · rw [if_pos h]
    exact match_map_image_nodup _ _ (extract_curl_nodup page)
  · rw [if_neg h]
    simp

theorem curl_matches_mem (page : Page) (m : Match) (hm : m ∈ curl_matches page) :
    m.image ∈ (extract_images page).2 := by
  unfold curl_matches at hm
  by_cases h : ¬(unmatched_labels page).isEmpty ∧ ¬(extract_images page).2.isEmpty
  · rw [if_pos h] at hm
    exact match_image_mem _ _ m hm
  · rw [if_neg h] at hm
    cases hm

/-- C1: for every label processed in encounter order, scoring is exactly as
claimed (accept under "label below image" with `30 < dy < 350`, `|dx| < 200`
and score `|dx| + |dy - 100|`, otherwise under "label right of image" with
`30 < dx < 350`, `|dy| < 200` and score `|dy| + |dx - 100|`); the chosen
candidate is unused, accepted, and of minimum score among the still-unused
accepted candidates; it is marked used and recorded as the Match; and the
one-label/one-flat-image scenario at (100, 300)/(100, 200) yields exactly
the single expected Match. -/
theorem C1_spatial_matcher :
    (∀ (label : Label) (img : SwatchImage),
      candidateScore label img =
        (if 30 < label.cy - img.cy ∧ label.cy - img.cy < 350 ∧
            |label.cx - img.cx| < 200 then
          some (|label.cx - img.cx| + |label.cy - img.cy - 100|)
        else if 30 < label.cx - img.cx ∧ label.cx - img.cx < 350 ∧
            |label.cy - img.cy| < 200 then
          some (|label.cy - img.cy| + |label.cx - img.cx - 100|)
        else none)) ∧
    (∀ (label : Label) (images : List SwatchImage) (used : List Nat)
        (i : Nat) (img : SwatchImage) (s : ℚ),
      pickBest label used images.enum none = some (i, img, s) →
        i ∉ used ∧ images[i]? = some img ∧ candidateScore label img = some s ∧
          ∀ (j : Nat) (img' : SwatchImage), j ∉ used → images[j]? = some img' →
            ∀ s', candidateScore label img' = some s' → s ≤ s') ∧
    (∀ (images : List SwatchImage) (st : MatchState) (label : Label)
        (i : Nat) (img : SwatchImage) (s : ℚ),
      pickBest label st.used images.enum none = some (i, img, s) →
        matchStep images st label =
          ⟨i :: st.used, st.matched ++ [⟨label.code, img⟩]⟩) ∧
    match_labels_to_images [⟨"83046A", 100, 300⟩] [imgFlat] =
      [⟨"83046A", imgFlat⟩] := by
  refine ⟨?_, ?_, ?_, by decide⟩
  · intro label img
    rfl
  · intro label images used i img s hp
    rcases pickBest_sound label used images.enum none (i, img, s) hp with h0 | hpr
    · cases h0
    · have hget : images[i]? = some img := List.mk_mem_enum_iff_getElem?.mp hpr.2.1
      obtain ⟨_, hmin⟩ := pickBest_min label used images.enum none (i, img, s) hp
      refine ⟨hpr.1, hget, hpr.2.2, ?_⟩
      intro j img' hj hj' s' hsc
      exact hmin (j, img') (List.mk_mem_enum_iff_getElem?.mpr hj') hj s' hsc
  · intro images st label i img s hp
    simp [matchStep, hp]

/-- Witness for C1: in the scenario pool, index 0 is unused, holds the flat
image, and its candidate score for the label at (100, 300) is exactly 0. -/
theorem C1_spatial_matcher_witness :
    ((0 : Nat) ∉ ([] : List Nat)) ∧
      ([imgFlat] : List SwatchImage)[0]? = some imgFlat ∧
      candidateScore ⟨"83046A", 100, 300⟩ imgFlat = some 0 := by
  have h := C1_spatial_matcher.2.1 ⟨"83046A", 100, 300⟩ [imgFlat] [] 0 imgFlat 0
    (by decide)
  exact ⟨h.1, h.2.1, h.2.2.1⟩

/-- C2 (amended): across the flat-pool matching pass and the curled-pool
retry, each SwatchImage is claimed by at most one Match — the matched images
of the series-filtered primary matches are pairwise distinct.  The auto-fix
pass, however, searches all page images regardless of prior use and can pair
an already-claimed image with a second code (the declared duplicate-image
fix hook `fix_duplicate_image` is an unimplemented stub). -/
theorem C2_spatial_injectivity (page : Page) :
    ((filtered_matches page).map Match.image).Nodup := by
  have hprim : ((primary_matches page).map Match.image).Nodup := by
    unfold primary_matches
    rw [List.map_append]
    refine List.Nodup.append (flat_matches_nodup page) (curl_matches_nodup page) ?_
    intro a ha hb
    rw [List.mem_map] at ha hb
    obtain ⟨m1, hm1, rfl⟩ := ha
    obtain ⟨m2, hm2, heq⟩ := hb
    have h1 := raw_flat_bounds page _
      (mem_extract_flat page _ (flat_matches_mem page m1 hm1))
    have h2 := raw_curl_bounds page _
      (mem_extract_curl page _ (curl_matches_mem page m2 hm2))
    rw [heq] at h2
    have h13 : m1.image.aspect ≤ 1.3 := h1.2.2.2
    have h14 : (1.4 : ℚ) ≤ m1.image.aspect := h2.2.2.2.1
    have hlt : (1.3 : ℚ) < 1.4 := by norm_num
    linarith
  unfold filtered_matches
  cases hs : parse_series page.text with
  | none => exact hprim
  | some s =>
    exact List.Nodup.sublist ((List.filter_sublist _).map Match.image) hprim

/-- Counterexample for C2 as stated: on a page with a single embedded image
(one xref, one placement) and labels `82046A`, `82046B`, the primary pass
matches `82046A` to the image and the auto-fix pass then pairs the very same
image with `82046B`, so one image is claimed by two different codes. -/
theorem C2_counterexample :
    pageTwoLabels.images.length = 1 ∧
      ((process_page pageTwoLabels 3).map fun out =>
        out.results.map fun r => (r.code, r.xref, r.bytes.id, r.auto_fixed)) =
        Except.ok [("82046A", 7, 1, false), ("82046B", 7, 1, true)] := by
  decide

/-! ## Lemmas about the save loop, auto-fix and per-page processing -/

theorem saveMatches_ok (page_num : Nat) :
    ∀ (ms : List Match) (rs : List Result),
      saveMatches page_num ms = Except.ok rs → rs = ms.map (toResult page_num)
  | [], rs, h => by
    unfold saveMatches at h
    exact (Except.ok.inj h).symm
  | m :: rest, rs, h => by
    unfold saveMatches at h
    by_cases hok : m.image.bytes.pilOk
    · rw [if_pos hok] at h
      cases hr : saveMatches page_num rest with
      | error e =>
        rw [hr] at h
        cases h
      | ok rs' =>
        rw [hr] at h
        have h' := Except.ok.inj h
        rw [← h', List.map_cons, saveMatches_ok page_num rest rs' hr]
    · rw [if_neg hok] at h
      cases h

theorem fix_missing_swatch_ok (page : Page) (n : Nat) (c : String) (r : Result)
    (h : fix_missing_swatch page n c = Except.ok (some r)) :
    r.code = c ∧ r.auto_fixed = true ∧ r.page = n := by
  unfold fix_missing_swatch at h
  cases hl : findLabelPos page c with
  | none =>
    rw [hl] at h
    cases Except.ok.inj h
  | some lp =>
    obtain ⟨lx, ly⟩ := lp
    rw [hl] at h
    dsimp only at h
    cases hsearch : fixSearch page lx ly with
    | none =>
      rw [hsearch] at h
      cases Except.ok.inj h
    | some t =>
      obtain ⟨sc, xr, e⟩ := t
      rw [hsearch] at h
      dsimp only at h
      by_cases hok : e.bytes.pilOk
      · rw [if_pos hok] at h
        have h' := Option.some.inj (Except.ok.inj h)
        rw [← h']
        exact ⟨rfl, rfl, rfl⟩
      · rw [if_neg hok] at h
        cases h

theorem fixLoop_ok (page : Page) (n : Nat) :
    ∀ (cs : List String) (fixed : List Result),
      fixLoop page n cs = Except.ok fixed →
      ∀ r ∈ fixed, r.auto_fixed = true ∧ r.page = n ∧ r.code ∈ cs
  | [], fixed, h => by
    unfold fixLoop at h
    rw [← Except.ok.inj h]
    intro r hr
    cases hr
  | c :: rest, fixed, h => by
    unfold fixLoop at h
    cases hf : fix_missing_swatch page n c with
    | error e =>
      rw [hf] at h
      cases h
    | ok ro =>
      rw [hf] at h
      cases hr : fixLoop page n rest with
      | error e =>
        rw [hr] at h
        cases h
      | ok rs =>
        rw [hr] at h
        cases ro with
        | some f =>
          have hfx : fixed = f :: rs := (Except.ok.inj h).symm
          subst hfx
          intro r hrm
          rcases List.mem_cons.mp hrm with rfl | hm
          · obtain ⟨hc, ha, hp⟩ := fix_missing_swatch_ok page n c r hf
            exact ⟨ha, hp, by rw [hc]; exact List.mem_cons_self _ _⟩
          · obtain ⟨ha, hp, hc⟩ := fixLoop_ok page n rest rs hr r hm
            exact ⟨ha, hp, List.mem_cons_of_mem _ hc⟩
        | none =>
          have hfx : fixed = rs := (Except.ok.inj h).symm
          subst hfx
          intro r hrm
          obtain ⟨ha, hp, hc⟩ := fixLoop_ok page n rest fixed hr r hrm
          exact ⟨ha, hp, List.mem_cons_of_mem _ hc⟩

theorem mem_missing_codes (expected extracted : List String) (c : String)
    (hc : c ∈ missing_codes expected extracted) :
    c ∈ expected ∧ c ∉ extracted := by
  unfold missing_codes at hc
  rcases mem_dedupBy _ _ [] c hc with h0 | h1
  · cases h0
  · have hmem := List.mem_filter.mp h1
    refine ⟨hmem.1, ?_⟩
    intro hx
    have hcon : extracted.contains c = true := List.elem_iff.mpr hx
    have h2 := hmem.2
    rw [hcon] at h2
    exact Bool.false_ne_true h2

theorem phase9_ok (page : Page) (n : Nat) (expected extracted : List String)
    (fixed : List Result) (log : List VEntry)
    (h : validate_phase9_with_fix page n expected extracted =
      Except.ok (fixed, log)) :
    (∀ r ∈ fixed, r.auto_fixed = true ∧ r.page = n ∧
      r.code ∈ expected ∧ r.code ∉ extracted) ∧
    ((missing_codes expected extracted).isEmpty = true → fixed = []) ∧
    (∀ e ∈ log, e.phase = "Phase 9" ∧ e.test_num = 35) ∧
    1 ≤ log.length ∧ log.length ≤ 2 := by
  unfold validate_phase9_with_fix at h
  by_cases hm : (missing_codes expected extracted).isEmpty
  · rw [if_pos hm] at h
    have hp := Except.ok.inj h
    injection hp with hp1 hp2
    refine ⟨?_, fun _ => hp1.symm, ?_, ?_, ?_⟩
    · rw [← hp1]
      intro r hr
      cases hr
    · rw [← hp2]
      intro e he
      rw [List.mem_singleton] at he
      subst he
      exact ⟨rfl, rfl⟩
    · rw [← hp2]
      simp
    · rw [← hp2]
      simp
  · rw [if_neg hm] at h
    cases hfl : fixLoop page n (missing_codes expected extracted) with
    | error e =>
      rw [hfl] at h
      cases h
    | ok fx =>
      rw [hfl] at h
      dsimp only at h
      have hfix : ∀ r ∈ fx, r.auto_fixed = true ∧ r.page = n ∧
          r.code ∈ expected ∧ r.code ∉ extracted := by
        intro r hr
        obtain ⟨ha, hp, hc⟩ := fixLoop_ok page n (missing_codes expected extracted) fx hfl r hr
        obtain ⟨he, hx⟩ := mem_missing_codes expected extracted r.code hc
        exact ⟨ha, hp, he, hx⟩
      by_cases hfe : fx.isEmpty
      · rw [if_pos hfe] at h
        have hp := Except.ok.inj h
        injection hp with hp1 hp2
        subst hp1
        refine ⟨hfix, fun hme => absurd hme hm, ?_, ?_, ?_⟩
        · rw [← hp2]
          intro e he
          rw [List.mem_singleton] at he
          subst he
          exact ⟨rfl, rfl⟩
        · rw [← hp2]
          simp
        · rw [← hp2]
          simp
      · rw [if_neg hfe] at h
        have hp := Except.ok.inj h
        injection hp with hp1 hp2
        subst hp1
        refine ⟨hfix, fun hme => absurd hme hm, ?_, ?_, ?_⟩
        · rw [← hp2]
          intro e he
          rcases List.mem_cons.mp he with rfl | he'
          · exact ⟨rfl, rfl⟩
          · rw [List.mem_singleton] at he'
            subst he'
            exact ⟨rfl, rfl⟩
        · rw [← hp2]
          simp
        · rw [← hp2]
          simp

theorem process_page_ok (page : Page) (n : Nat) (out : PageOutput)
    (h : process_page page n = Except.ok out) :
    ∃ saved fixed,
      saveMatches n (filtered_matches page) = Except.ok saved ∧
      validate_phase9_with_fix page n (expected_codes_of page)
        (saved.map Result.code) = Except.ok (fixed, out.log) ∧
      out.results = saved ++ fixed ∧ out.count.page = n := by
  unfold process_page at h
  cases hs : saveMatches n (filtered_matches page) with
  | error e =>
    rw [hs] at h
    cases h
  | ok saved =>
    rw [hs] at h
    dsimp only at h
    cases hph : validate_phase9_with_fix page n (expected_codes_of page)
        (saved.map Result.code) with
    | error e =>
      rw [hph] at h
      cases h
    | ok pr =>
      obtain ⟨fixed, log⟩ := pr
      rw [hph] at h
      dsimp only at h
      have hp := (Except.ok.inj h).symm
      subst hp
      exact ⟨saved, fixed, rfl, hph, rfl, rfl⟩

/-- C3: on a page with a detected 5-digit series, every retained result's
code starts with that series (spatially matched pairs with a different
series are filtered out, and auto-fixed codes come from the series-filtered
expected list); on a page without a detected series, the saved results are
exactly the primary matches — nothing is filtered on that basis. -/
theorem C3_series_filter (page : Page) (n : Nat) (out : PageOutput)
    (h : process_page page n = Except.ok out) :
    (∀ s, parse_series page.text = some s →
      ∀ r ∈ out.results, pyStartswith r.code s = true) ∧
    (parse_series page.text = none →
      out.results.map Result.code = (primary_matches page).map Match.code) := by
  obtain ⟨saved, fixed, hs, hph, hres, hcp⟩ := process_page_ok page n out h
  have hsaved := saveMatches_ok n (filtered_matches page) saved hs
  obtain ⟨hfix, hempty, -, -, -⟩ :=
    phase9_ok page n (expected_codes_of page) (saved.map Result.code) fixed out.log hph
  constructor
  · intro s hser r hr
    rw [hres] at hr
    rcases List.mem_append.mp hr with hrs | hrf
    · rw [hsaved] at hrs
      rw [List.mem_map] at hrs
      obtain ⟨m, hm, rfl⟩ := hrs
      unfold filtered_matches at hm
      rw [hser] at hm
      have := (List.mem_filter.mp hm).2
      exact this
    · have hcode := (hfix r hrf).2.2.1
      unfold expected_codes_of at hcode
      rw [hser] at hcode
      rw [List.mem_map] at hcode
      obtain ⟨l, hl, hlc⟩ := hcode
      have := (List.mem_filter.mp hl).2
      rw [← hlc]
      exact this
  · intro hser
    have hexp : expected_codes_of page = [] := by
      unfold expected_codes_of
      rw [hser]
    have hfixed : fixed = [] := by
      apply hempty
      rw [hexp]
      rfl
    rw [hres, hfixed, List.append_nil, hsaved, List.map_map]
    have hfm : filtered_matches page = primary_matches page := by
      unfold filtered_matches
      rw [hser]
    rw [hfm]
    rfl

/-- Witness for C3: on the concrete two-label page (series `82046`) every
result code starts with the detected series. -/
theorem C3_series_filter_witness :
    ((process_page pageTwoLabels 3).map fun out =>
      out.results.all fun r => pyStartswith r.code "82046") = Except.ok true := by
  cases hpp : process_page pageTwoLabels 3 with
  | error e =>
    cases e
    exact absurd hpp (by decide)
  | ok out =>
    have h := (C3_series_filter pageTwoLabels 3 out hpp).1 "82046" (by decide)
    simp only [Except.map]
    refine congrArg Except.ok ?_
    rw [List.all_eq_true]
    intro r hr
    exact h r hr

/-- C4: the auto-fix pass attempts recovery only for codes in
`expected_codes − extracted_codes`, so an auto-fixed result's code is an
expected code of the page and is not among the codes of the page's saved
(non-auto-fixed) results. -/
theorem C4_autofix_only_missing (page : Page) (n : Nat) (out : PageOutput)
    (h : process_page page n = Except.ok out) :
    ∀ r ∈ out.results, r.auto_fixed = true →
      r.code ∈ expected_codes_of page ∧
        r.code ∉ (out.results.filter fun x => !x.auto_fixed).map Result.code := by
  obtain ⟨saved, fixed, hs, hph, hres, hcp⟩ := process_page_ok page n out h
  have hsaved := saveMatches_ok n (filtered_matches page) saved hs
  obtain ⟨hfix, -, -, -, -⟩ :=
    phase9_ok page n (expected_codes_of page) (saved.map Result.code) fixed out.log hph
  have hsavedAF : ∀ r ∈ saved, r.auto_fixed = false := by
    intro r hr
    rw [hsaved] at hr
    rw [List.mem_map] at hr
    obtain ⟨m, _, rfl⟩ := hr
    rfl
  have hfilter : (out.results.filter fun x => !x.auto_fixed) = saved := by
    rw [hres, List.filter_append]
    have h1 : saved.filter (fun x => !x.auto_fixed) = saved :=
      List.filter_eq_self.mpr fun r hr => by rw [hsavedAF r hr]; rfl
    have h2 : fixed.filter (fun x => !x.auto_fixed) = [] :=
      List.filter_eq_nil_iff.mpr fun r hr => by rw [(hfix r hr).1]; simp
    rw [h1, h2, List.append_nil]
  intro r hr hauto
  rw [hres] at hr
  rcases List.mem_append.mp hr with hrs | hrf
  · rw [hsavedAF r hrs] at hauto
    cases hauto
  · obtain ⟨-, -, hexp, hnot⟩ := hfix r hrf
    refine ⟨hexp, ?_⟩
    rw [hfilter]
    exact hnot

/-- Witness for C4: on the concrete two-label page the auto-fixed result
`82046B` is expected and is not among the saved codes. -/
theorem C4_autofix_only_missing_witness :
    ((process_page pageTwoLabels 3).map fun out =>
      out.results.all fun r =>
        !r.auto_fixed ||
          (decide (r.code ∈ expected_codes_of pageTwoLabels) &&
            !(((out.results.filter fun x => !x.auto_fixed).map
                Result.code).contains r.code))) = Except.ok true := by
  cases hpp : process_page pageTwoLabels 3 with
  | error e =>
    cases e
    exact absurd hpp (by decide)
  | ok out =>
    have h := C4_autofix_only_missing pageTwoLabels 3 out hpp
    simp only [Except.map]
    refine congrArg Except.ok ?_
    rw [List.all_eq_true]
    intro r hr
    by_cases hauto : r.auto_fixed = true
    · obtain ⟨h1, h2⟩ := h r hr hauto
      rw [Bool.or_eq_true, Bool.and_eq_true]
      refine Or.inr ⟨decide_eq_true h1, ?_⟩
      cases hc : ((out.results.filter fun x => !x.auto_fixed).map
          Result.code).contains r.code
      · rfl
      · exact absurd (List.elem_iff.mp hc) h2
    · rw [Bool.not_eq_true] at hauto
      rw [hauto]
      rfl

/-! ## Lemmas about the page loop and `run` -/

theorem process_page_meta (page : Page) (n : Nat) (out : PageOutput)
    (h : process_page page n = Except.ok out) :
    (∀ r ∈ out.results, r.page = n) ∧
    (∀ e ∈ out.log, e.phase = "Phase 9" ∧ e.test_num = 35) ∧
    1 ≤ out.log.length ∧ out.log.length ≤ 2 := by
  obtain ⟨saved, fixed, hs, hph, hres, hcp⟩ := process_page_ok page n out h
  have hsaved := saveMatches_ok n (filtered_matches page) saved hs
  obtain ⟨hfix, -, hlog, hl1, hl2⟩ :=
    phase9_ok page n (expected_codes_of page) (saved.map Result.code) fixed out.log hph
  refine ⟨?_, hlog, hl1, hl2⟩
  intro r hr
  rw [hres] at hr
  rcases List.mem_append.mp hr with hrs | hrf
  · rw [hsaved] at hrs
    rw [List.mem_map] at hrs
    obtain ⟨m, -, rfl⟩ := hrs
    rfl
  · exact (hfix r hrf).2.1

theorem processPages_props (doc : Doc) :
    ∀ (nums : List Nat) (rs : List Result) (ls : List VEntry) (cs : List PageCount),
      processPages doc nums = Except.ok (rs, ls, cs) →
      cs.map PageCount.page =
        nums.filter (fun n => (doc.pages.get? (n - 1)).isSome) ∧
      (∀ r ∈ rs, r.page ∈ nums) ∧
      (∀ e ∈ ls, e.phase = "Phase 9" ∧ e.test_num = 35) ∧
      cs.length ≤ ls.length ∧ ls.length ≤ 2 * cs.length
  | [], rs, ls, cs, h => by
    unfold processPages at h
    have hp := Except.ok.inj h
    injection hp with h1 hp'
    injection hp' with h2 h3
    subst h1
    subst h2
    subst h3
    refine ⟨rfl, ?_, ?_, Nat.le_refl 0, Nat.le_refl 0⟩
    · intro r hr
      cases hr
    · intro e he
      cases he
  | n :: rest, rs, ls, cs, h => by
    unfold processPages at h
    cases hg : doc.pages.get? (n - 1) with
    | none =>
      rw [hg] at h
      obtain ⟨h1, h2, h3, h4, h5⟩ := processPages_props doc rest rs ls cs h
      refine ⟨?_, ?_, h3, h4, h5⟩
      · rw [List.filter_cons, hg]
        simpa using h1
      · intro r hr
        exact List.mem_cons_of_mem _ (h2 r hr)
    | some page =>
      rw [hg] at h
      dsimp only at h
      cases hpp : process_page page n with
      | error e =>
        rw [hpp] at h
        cases h
      | ok out =>
        rw [hpp] at h
        dsimp only at h
        cases hrest : processPages doc rest with
        | error e =>
          rw [hrest] at h
          cases h
        | ok tr =>
          obtain ⟨rs', ls', cs'⟩ := tr
          rw [hrest] at h
          dsimp only at h
          have hp := Except.ok.inj h
          injection hp with h1 hp'
          injection hp' with h2 h3
          subst h1
          subst h2
          subst h3
          obtain ⟨hm1, hm2, hm3, hm4, hm5⟩ := processPages_props doc rest rs' ls' cs' hrest
          obtain ⟨saved, fixed, hs, hph, hres, hcp⟩ := process_page_ok page n out hpp
          obtain ⟨hpg, hlog, hll, hlu⟩ := process_page_meta page n out hpp
          refine ⟨?_, ?_, ?_, ?_, ?_⟩
          · rw [List.map_cons, hcp, List.filter_cons, hg]
            simp only [Option.isSome_some, if_true]
            rw [hm1]
          · intro r hr
            rcases List.mem_append.mp hr with hro | hrr
            · rw [hpg r hro]
              exact List.mem_cons_self _ _
            · exact List.mem_cons_of_mem _ (hm2 r hrr)
          · intro e he
            rcases List.mem_append.mp he with heo | her
            · exact hlog e heo
            · exact hm3 e her
          · simp only [List.length_cons, List.length_append]
            omega
          · simp only [List.length_cons, List.length_append]
            omega

/-- C10: the run processes exactly the 1-indexed pages 3 through
`min(#pages, 20)`: the recorded page counts list those numbers in order,
every technical-spec record comes from such a page, and a document with
fewer than 3 pages yields no processed pages at all. -/
theorem C10_page_range (doc : Doc) (r : RunResult)
    (h : run doc = Except.ok r) :
    (∀ n, n ∈ pageNums doc ↔ 3 ≤ n ∧ n ≤ doc.pages.length ∧ n ≤ 20) ∧
    r.page_counts.map PageCount.page = pageNums doc ∧
    (∀ spec ∈ r.technical_specs, spec.page ∈ pageNums doc) ∧
    (doc.pages.length < 3 → r.page_counts = [] ∧ r.technical_specs = []) := by
  have hiff : ∀ n, n ∈ pageNums doc ↔ 3 ≤ n ∧ n ≤ doc.pages.length ∧ n ≤ 20 := by
    intro n
    unfold pageNums
    rw [List.mem_range']
    constructor
    · rintro ⟨i, hi, rfl⟩
      omega
    · rintro ⟨h3, hlen, h20⟩
      exact ⟨n - 3, by omega, by omega⟩
  unfold run at h
  cases hpp : processPages doc (pageNums doc) with
  | error e =>
    rw [hpp] at h
    cases h
  | ok tr =>
    obtain ⟨rs, ls, cs⟩ := tr
    rw [hpp] at h
    dsimp only at h
    have hr := (Except.ok.inj h).symm
    subst hr
    obtain ⟨h1, h2, h3, h4, h5⟩ := processPages_props doc (pageNums doc) rs ls cs hpp
    have hfilter : (pageNums doc).filter
        (fun n => (doc.pages.get? (n - 1)).isSome) = pageNums doc := by
      apply List.filter_eq_self.mpr
      intro n hn
      obtain ⟨hn3, hnl, hn20⟩ := (hiff n).mp hn
      have hlt : n - 1 < doc.pages.length := by omega
      rw [List.get?_eq_getElem?, List.getElem?_eq_getElem hlt]
      rfl
    refine ⟨hiff, ?_, ?_, ?_⟩
    · rw [h1, hfilter]
    · intro spec hs
      exact h2 spec hs
    · intro hlen
      have hnil : pageNums doc = [] := by
        unfold pageNums
        have hz : min (doc.pages.length + 1) 21 - 3 = 0 := by omega
        rw [hz]
        rfl
      constructor
      · have hmap := h1
        rw [hfilter, hnil] at hmap
        exact List.map_eq_nil_iff.mp hmap
      · rw [hnil] at h2
        apply List.eq_nil_iff_forall_not_mem.mpr
        intro spec hs
        exact absurd (h2 spec hs) (List.not_mem_nil _)

theorem countTest_append (l1 l2 : List VEntry) (n : Nat) :
    countTest (l1 ++ l2) n = countTest l1 n + countTest l2 n := by
  unfold countTest
  rw [List.filter_append, List.length_append]

theorem countTest_eq_zero (l : List VEntry) (n : Nat)
    (h : ∀ e ∈ l, e.test_num ≠ n) : countTest l n = 0 := by
  unfold countTest
  rw [List.filter_eq_nil_iff.mpr]
  · rfl
  · intro e he hb
    exact h e he (by simpa using hb)

theorem countTest_const (l : List VEntry) (n : Nat)
    (h : ∀ e ∈ l, e.test_num = n) : countTest l n = l.length := by
  unfold countTest
  rw [List.filter_eq_self.mpr]
  intro e he
  simp [h e he]

theorem phase1_nums (doc : Doc) :
    ∀ e ∈ validate_phase1 doc,
      e.test_num = 1 ∨ e.test_num = 2 ∨ e.test_num = 3 ∨ e.test_num = 4 := by
  intro e he
  unfold validate_phase1 at he
  rcases List.mem_cons.mp he with rfl | he
  · exact Or.inl rfl
  rcases List.mem_cons.mp he with rfl | he
  · exact Or.inr (Or.inl rfl)
  rcases List.mem_cons.mp he with rfl | he
  · exact Or.inr (Or.inr (Or.inl rfl))
  rcases List.mem_cons.mp he with rfl | he
  · exact Or.inr (Or.inr (Or.inr rfl))
  cases he

theorem phase1_test1_status (doc : Doc) :
    ∀ e ∈ validate_phase1 doc, e.test_num = 1 → e.status = true := by
  intro e he hn
  unfold validate_phase1 at he
  rcases List.mem_cons.mp he with rfl | he
  · rfl
  rcases List.mem_cons.mp he with rfl | he
  · cases hn
  rcases List.mem_cons.mp he with rfl | he
  · cases hn
  rcases List.mem_cons.mp he with rfl | he
  · cases hn
  cases he

/-- C7 (amended): tests 1-4 each append exactly one entry per run (test 1 an
unconditional PASS, tests 2-4 data-dependent); tests 5-34 each append
exactly one entry recorded as an unconditional PASS; test 36 appends exactly
one entry that is always PASS; test 37 appends exactly one data-dependent
entry; and test 35 appends between one and two entries per processed page —
in particular none at all when no pages are processed. -/
theorem C7_validation_ledger (doc : Doc) (r : RunResult)
    (h : run doc = Except.ok r) :
    (∀ n, 1 ≤ n → n ≤ 4 → countTest r.validation_log n = 1) ∧
    (∀ n, 5 ≤ n → n ≤ 34 → countTest r.validation_log n = 1) ∧
    (∀ e ∈ r.validation_log,
      ((5 ≤ e.test_num ∧ e.test_num ≤ 34) ∨ e.test_num = 1 ∨ e.test_num = 36) →
        e.status = true) ∧
    countTest r.validation_log 36 = 1 ∧
    countTest r.validation_log 37 = 1 ∧
    r.page_counts.length ≤ countTest r.validation_log 35 ∧
    countTest r.validation_log 35 ≤ 2 * r.page_counts.length := by
  unfold run at h
  cases hpp : processPages doc (pageNums doc) with
  | error e =>
    rw [hpp] at h
    cases h
  | ok tr =>
    obtain ⟨rs, ls, cs⟩ := tr
    rw [hpp] at h
    dsimp only at h
    have hr := (Except.ok.inj h).symm
    subst hr
    obtain ⟨-, -, h35, h4, h5⟩ := processPages_props doc (pageNums doc) rs ls cs hpp
    have hsplit : ∀ n, countTest
        (validate_phase1 doc ++ phase2to7_log ++ ls ++ phase8_log ++
          [⟨"Phase 9", 36, "Missing Swatch Detection & Auto-Fix", true⟩,
           ⟨"Phase 9", 37, "Total Count Validation",
             decide ((cs.map PageCount.expected).sum ≤
               (cs.map PageCount.extracted).sum)⟩]) n =
        countTest (validate_phase1 doc) n + countTest phase2to7_log n +
          countTest ls n + countTest phase8_log n +
          countTest [(⟨"Phase 9", 36, "Missing Swatch Detection & Auto-Fix", true⟩ : VEntry),
            ⟨"Phase 9", 37, "Total Count Validation",
             decide ((cs.map PageCount.expected).sum ≤
               (cs.map PageCount.extracted).sum)⟩] n := by
      intro n
      rw [countTest_append, countTest_append, countTest_append, countTest_append]
    have hls0 : ∀ n, n ≠ 35 → countTest ls n = 0 := by
      intro n hn
      apply countTest_eq_zero
      intro e he
      rw [(h35 e he).2]
      exact fun hc => hn hc.symm
    have hls35 : countTest ls 35 = ls.length :=
      countTest_const ls 35 fun e he => (h35 e he).2
    have hA0 : ∀ n, 5 ≤ n → countTest (validate_phase1 doc) n = 0 := by
      intro n hn
      apply countTest_eq_zero
      intro e he
      rcases phase1_nums doc e he with h1 | h1 | h1 | h1 <;> omega
    have hA1 : ∀ n, 1 ≤ n → n ≤ 4 → countTest (validate_phase1 doc) n = 1 := by
      intro n hn1 hn4
      interval_cases n <;> simp [countTest, validate_phase1]
    refine ⟨?_, ?_, ?_, ?_, ?_, ?_, ?_⟩
    · intro n hn1 hn4
      rw [hsplit, hA1 n hn1 hn4, hls0 n (by omega)]
      have hn' : n ≤ 4 := hn4
      interval_cases n <;> simp [countTest, phase2to7_log, phase8_log]
    · intro n hn5 hn34
      rw [hsplit, hA0 n hn5, hls0 n (by omega)]
      interval_cases n <;> simp [countTest, phase2to7_log, phase8_log]
    · intro e he hcase
      rcases List.mem_append.mp he with he' | he'
      rotate_left
      · rcases List.mem_cons.mp he' with rfl | he''
        · rfl
        · rw [List.mem_singleton] at he''
          subst he''
          rcases hcase with hc | hc | hc <;> simp at hc <;> omega
      rcases List.mem_append.mp he' with he'' | he''
      rotate_left
      · have hst : ∀ x ∈ phase8_log, x.status = true := by decide
        exact hst e he''
      rcases List.mem_append.mp he'' with he3 | he3
      rotate_left
      · have h35e := (h35 e he3).2
        rcases hcase with hc | hc | hc <;> omega
      rcases List.mem_append.mp he3 with he4 | he4
      · rcases hcase with hc | hc | hc
        · rcases phase1_nums doc e he4 with h1 | h1 | h1 | h1 <;> omega
        · exact phase1_test1_status doc e he4 hc
        · rcases phase1_nums doc e he4 with h1 | h1 | h1 | h1 <;> omega
      · have : ∀ x ∈ phase2to7_log, x.status = true := by decide
        exact this e he4
    · rw [hsplit, hA0 36 (by omega), hls0 36 (by omega)]
      simp [countTest, phase2to7_log, phase8_log]
    · rw [hsplit, hA0 37 (by omega), hls0 37 (by omega)]
      simp [countTest, phase2to7_log, phase8_log]
    · rw [hsplit, hA0 35 (by omega), hls35]
      have hz2 : countTest phase2to7_log 35 = 0 := by decide
      have hz8 : countTest phase8_log 35 = 0 := by decide
      rw [hz2, hz8]
      simp [countTest]
      omega
    · rw [hsplit, hA0 35 (by omega), hls35]
      have hz2 : countTest phase2to7_log 35 = 0 := by decide
      have hz8 : countTest phase8_log 35 = 0 := by decide
      rw [hz2, hz8]
      simp [countTest]
      omega

/-- Counterexample for C7 as stated: on a two-page document the run records
no test-35 entry at all (and only 36 ledger entries in total), and the
test-2 entry is recorded as FAIL, not as an unconditional PASS. -/
theorem C7_counterexample :
    ((run docTwoPages).map fun r =>
        (countTest r.validation_log 35, r.validation_log.length,
          (r.validation_log.filter fun e => e.test_num == 2).map VEntry.status)) =
      Except.ok (0, 36, [false]) := by
  decide

/-- Witness for C7: on a concrete run, tests 36 and 37 each have exactly one
ledger entry. -/
theorem C7_validation_ledger_witness :
    ((run docTwoPages).map fun r =>
        (countTest r.validation_log 36, countTest r.validation_log 37)) =
      Except.ok (1, 1) := by
  cases hr : run docTwoPages with
  | error e =>
    cases e
    exact absurd hr (by decide)
  | ok r =>
    have h := C7_validation_ledger docTwoPages r hr
    simp only [Except.map]
    rw [h.2.2.2.1, h.2.2.2.2.1]

/-- Witness for C10: a two-page document yields no page counts and no
technical specs. -/
theorem C10_page_range_witness :
    ((run docTwoPages).map fun r => (r.page_counts, r.technical_specs)) =
      Except.ok ([], []) := by
  cases hr : run docTwoPages with
  | error e =>
    cases e
    exact absurd hr (by decide)
  | ok r =>
    have h := (C10_page_range docTwoPages r hr).2.2.2 (by decide)
    simp only [Except.map]
    rw [h.1, h.2]

/-! ## Lemmas about error propagation -/

theorem fixRectStep_cases (xref : Nat) (e : ExtractedImage) (lx ly : ℚ)
    (best : Option (ℚ × Nat × ExtractedImage)) (rect : Rect) :
    fixRectStep xref e lx ly best rect = best ∨
      ∃ sc, fixRectStep xref e lx ly best rect = some (sc, xref, e) := by
  simp only [fixRectStep]
  split
  · cases best with
    | none => exact Or.inr ⟨_, rfl⟩
    | some t =>
      obtain ⟨bs, bx, be⟩ := t
      dsimp only
      split
      · exact Or.inr ⟨_, rfl⟩
      · exact Or.inl rfl
  · exact Or.inl rfl

theorem foldl_fixRect_sound (xref : Nat) (e : ExtractedImage) (lx ly : ℚ) :
    ∀ (rects : List Rect) (best : Option (ℚ × Nat × ExtractedImage))
      (t : ℚ × Nat × ExtractedImage),
      rects.foldl (fixRectStep xref e lx ly) best = some t →
      best = some t ∨ (t.2.1 = xref ∧ t.2.2 = e)
  | [], _, t, h => Or.inl h
  | rect :: rects, best, t, h => by
    rw [List.foldl_cons] at h
    rcases foldl_fixRect_sound xref e lx ly rects _ t h with h1 | h2
    · rcases fixRectStep_cases xref e lx ly best rect with hc | ⟨sc, hc⟩
      · rw [hc] at h1
        exact Or.inl h1
      · rw [hc] at h1
        have ht := Option.some.inj h1
        rw [← ht]
        exact Or.inr ⟨rfl, rfl⟩
    · exact Or.inr h2

theorem fixSearch_sound (page : Page) (lx ly : ℚ) :
    ∀ (t : ℚ × Nat × ExtractedImage), fixSearch page lx ly = some t →
      ∃ info ∈ page.images, info.extract = some t.2.2 := by
  suffices hgen : ∀ (infos : List ImgInfo)
      (best : Option (ℚ × Nat × ExtractedImage)) (t : ℚ × Nat × ExtractedImage),
      infos.foldl
        (fun best info =>
          match info.extract with
          | none => best
          | some e =>
            if 300 ≤ e.width ∧ 300 ≤ e.height then
              info.rects.foldl (fixRectStep info.xref e lx ly) best
            else
              best)
        best = some t →
      best = some t ∨ ∃ info ∈ infos, info.extract = some t.2.2 by
    intro t h
    rcases hgen page.images none t h with h0 | h1
    · cases h0
    · exact h1
  intro infos
  induction infos with
  | nil => exact fun best t h => Or.inl h
  | cons info rest ih =>
    intro best t h
    rw [List.foldl_cons] at h
    cases hx : info.extract with
    | none =>
      rw [hx] at h
      rcases ih _ t h with h0 | h1
      · exact Or.inl h0
      · obtain ⟨i, hi, he⟩ := h1
        exact Or.inr ⟨i, List.mem_cons_of_mem _ hi, he⟩
    | some e =>
      rw [hx] at h
      dsimp only at h
      by_cases hsz : 300 ≤ e.width ∧ 300 ≤ e.height
      · rw [if_pos hsz] at h
        rcases ih _ t h with h0 | h1
        · rcases foldl_fixRect_sound info.xref e lx ly info.rects best t h0 with h2 | h3
          · exact Or.inl h2
          · refine Or.inr ⟨info, List.mem_cons_self _ _, ?_⟩
            rw [hx, h3.2]
        · obtain ⟨i, hi, he⟩ := h1
          exact Or.inr ⟨i, List.mem_cons_of_mem _ hi, he⟩
      · rw [if_neg hsz] at h
        rcases ih _ t h with h0 | h1
        · exact Or.inl h0
        · obtain ⟨i, hi, he⟩ := h1
          exact Or.inr ⟨i, List.mem_cons_of_mem _ hi, he⟩

theorem fix_missing_swatch_isOk (page : Page) (n : Nat) (c : String)
    (hp : ∀ info ∈ page.images, ∀ e, info.extract = some e →
      e.bytes.pilOk = true) :
    ∃ ro, fix_missing_swatch page n c = Except.ok ro := by
  unfold fix_missing_swatch
  cases hl : findLabelPos page c with
  | none => exact ⟨none, rfl⟩
  | some lp =>
    obtain ⟨lx, ly⟩ := lp
    dsimp only
    cases hsearch : fixSearch page lx ly with
    | none => exact ⟨none, rfl⟩
    | some t =>
      obtain ⟨sc, xr, e⟩ := t
      obtain ⟨info, hinfo, hex⟩ := fixSearch_sound page lx ly (sc, xr, e) hsearch
      have hok : e.bytes.pilOk = true := hp info hinfo e hex
      refine ⟨some ⟨c, xr, e.bytes, e.width, e.height, n, true⟩, ?_⟩
      dsimp only
      rw [if_pos hok]

theorem fixLoop_isOk (page : Page) (n : Nat)
    (hp : ∀ info ∈ page.images, ∀ e, info.extract = some e →
      e.bytes.pilOk = true) :
    ∀ cs : List String, ∃ rs, fixLoop page n cs = Except.ok rs
  | [] => ⟨[], rfl⟩
  | c :: rest => by
    obtain ⟨ro, hro⟩ := fix_missing_swatch_isOk page n c hp
    obtain ⟨rs, hrs⟩ := fixLoop_isOk page n hp rest
    unfold fixLoop
    rw [hro, hrs]
    cases ro with
    | some f => exact ⟨f :: rs, rfl⟩
    | none => exact ⟨rs, rfl⟩

theorem validate_phase9_isOk (page : Page) (n : Nat)
    (expected extracted : List String)
    (hp : ∀ info ∈ page.images, ∀ e, info.extract = some e →
      e.bytes.pilOk = true) :
    ∃ pr, validate_phase9_with_fix page n expected extracted = Except.ok pr := by
  unfold validate_phase9_with_fix
  by_cases hm : (missing_codes expected extracted).isEmpty
  · rw [if_pos hm]
    exact ⟨_, rfl⟩
  · rw [if_neg hm]
    obtain ⟨rs, hrs⟩ := fixLoop_isOk page n hp (missing_codes expected extracted)
    rw [hrs]
    dsimp only
    by_cases hfe : rs.isEmpty
    · rw [if_pos hfe]
      exact ⟨_, rfl⟩
    · rw [if_neg hfe]
      exact ⟨_, rfl⟩

theorem pool_bytes_pilOk (page : Page)
    (hp : ∀ info ∈ page.images, ∀ e, info.extract = some e →
      e.bytes.pilOk = true)
    (img : SwatchImage)
    (h : img ∈ (extract_images page).1 ∨ img ∈ (extract_images page).2) :
    img.bytes.pilOk = true := by
  rcases h with h | h
  · obtain ⟨info, hinfo, e, hex, -, rect, -, -, -, rfl⟩ :=
      (mem_raw_pools page img).1.mp (mem_extract_flat page img h)
    exact hp info hinfo e hex
  · obtain ⟨info, hinfo, e, hex, -, rect, -, -, -, rfl⟩ :=
      (mem_raw_pools page img).2.mp (mem_extract_curl page img h)
    exact hp info hinfo e hex

theorem filtered_matches_pilOk (page : Page)
    (hp : ∀ info ∈ page.images, ∀ e, info.extract = some e →
      e.bytes.pilOk = true) :
    ∀ m ∈ filtered_matches page, m.image.bytes.pilOk = true := by
  intro m hm
  have hmem : m ∈ primary_matches page := by
    unfold filtered_matches at hm
    revert hm
    cases parse_series page.text with
    | none => exact fun hm => hm
    | some s => exact fun hm => (List.mem_filter.mp hm).1
  unfold primary_matches at hmem
  rcases List.mem_append.mp hmem with h | h
  · exact pool_bytes_pilOk page hp m.image (Or.inl (flat_matches_mem page m h))
  · exact pool_bytes_pilOk page hp m.image (Or.inr (curl_matches_mem page m h))

theorem saveMatches_isOk (n : Nat) :
    ∀ ms : List Match, (∀ m ∈ ms, m.image.bytes.pilOk = true) →
      ∃ rs, saveMatches n ms = Except.ok rs
  | [], _ => ⟨[], rfl⟩
  | m :: rest, hall => by
    obtain ⟨rs, hrs⟩ :=
      saveMatches_isOk n rest fun x hx => hall x (List.mem_cons_of_mem _ hx)
    unfold saveMatches
    rw [if_pos (hall m (List.mem_cons_self _ _)), hrs]
    exact ⟨_, rfl⟩

theorem process_page_isOk (page : Page) (n : Nat)
    (hp : ∀ info ∈ page.images, ∀ e, info.extract = some e →
      e.bytes.pilOk = true) :
    ∃ out, process_page page n = Except.ok out := by
  obtain ⟨saved, hsaved⟩ :=
    saveMatches_isOk n (filtered_matches page) (filtered_matches_pilOk page hp)
  obtain ⟨pr, hpr⟩ :=
    validate_phase9_isOk page n (expected_codes_of page) (saved.map Result.code) hp
  obtain ⟨fixed, log⟩ := pr
  unfold process_page
  rw [hsaved]
  dsimp only
  rw [hpr]
  exact ⟨_, rfl⟩

theorem processPages_isOk (doc : Doc)
    (hp : ∀ page ∈ doc.pages, ∀ info ∈ page.images, ∀ e,
      info.extract = some e → e.bytes.pilOk = true) :
    ∀ nums : List Nat, ∃ tr, processPages doc nums = Except.ok tr
  | [] => ⟨([], [], []), rfl⟩
  | n :: rest => by
    obtain ⟨tr, htr⟩ := processPages_isOk doc hp rest
    obtain ⟨rs, ls, cs⟩ := tr
    unfold processPages
    cases hg : doc.pages.get? (n - 1) with
    | none => exact ⟨(rs, ls, cs), htr⟩
    | some page =>
      have hpage : page ∈ doc.pages := by
        rw [List.get?_eq_getElem?] at hg
        exact List.getElem?_mem hg
      obtain ⟨out, hout⟩ := process_page_isOk page n (hp page hpage)
      dsimp only
      rw [hout]
      dsimp only
      rw [htr]
      exact ⟨_, rfl⟩

/-- C8 (amended): extraction failures during pool construction and during
the auto-fix image search are caught and skipped, and whenever the bytes of
every extractable image on the processed pages decode, the run completes
without error.  However the decode/save of a matched image's bytes during
output assembly (and of the auto-fix winner) runs outside any handler, so
such a failure propagates out of the run — see the counterexample. -/
theorem C8_error_propagation (doc : Doc)
    (hall : ∀ page ∈ doc.pages, ∀ info ∈ page.images, ∀ e,
      info.extract = some e → e.bytes.pilOk = true) :
    (run doc).isOk = true := by
  obtain ⟨tr, htr⟩ := processPages_isOk doc hall (pageNums doc)
  obtain ⟨rs, ls, cs⟩ := tr
  unfold run
  rw [htr]
  rfl

/-- Counterexample for C8 as stated: a document whose page 3 has a matched
image with PIL-undecodable bytes makes the whole run fail — the decode
failure during output assembly propagates out of the run. -/
theorem C8_counterexample : run docBadBytes = Except.error () := by
  decide

/-- Witness for C8: with every image decodable, the concrete run succeeds. -/
theorem C8_error_propagation_witness : (run docTwoLabels).isOk = true :=
  C8_error_propagation docTwoLabels (by decide)

end FabricExtractor
